import Mathlib

/-!
Verification development for the moobot-music-scraper extraction core.

Strings from the Python source are modelled as lists of characters
(`List Char`); Python string methods (`lower`, `strip`, `split`, `join`,
`startswith`, `endswith`, the `in` substring test) are embedded as
executable functions on such lists.  Regular-expression checks from the
source are embedded as equivalent decidable matchers; the character
classes of the patterns are modelled over their ASCII range, which is the
range every claim and every concrete input in this development exercises.

The DOM query interface (Selenium WebDriver) is external input to the
program; it is modelled by stub structures that record, per query, what
the live page would have answered, including fault injection for calls
that raise.
-/

/-- Characters treated as whitespace by str.split and str.strip. -/
def isPySpace (c : Char) : Bool :=
  c = ' ' || c = '\t' || c = '\n' || c = '\r' || c = '\x0b' || c = '\x0c'

/-- Abbreviation turning a string literal into the character-list model. -/
def s2c (s : String) : List Char := s.data

/-- Model of str.lower on one character: uppercase ASCII letters
(codepoints 65 to 90) map to their lowercase form, everything else is
unchanged. -/
def pyLowerChar (c : Char) : Char :=
  if 65 ≤ c.toNat ∧ c.toNat ≤ 90 then Char.ofNat (c.toNat + 32) else c

/-- Model of str.lower. -/
def pyLower (l : List Char) : List Char := l.map pyLowerChar

/-- Model of str.strip: drop whitespace from both ends. -/
def pyStrip (l : List Char) : List Char :=
  ((l.dropWhile isPySpace).reverse.dropWhile isPySpace).reverse

/-- Model of str.split with no separator argument: split on runs of
whitespace and drop the empty chunks. -/
def pySplit (l : List Char) : List (List Char) :=
  (l.splitOnP isPySpace).filter (fun w => !w.isEmpty)

/-- Model of a space-separated str.join over a list of words. -/
def joinSp : List (List Char) → List Char
  | [] => []
  | [w] => w
  | w :: ws => w ++ ' ' :: joinSp ws

/-- Model of the whitespace-collapsing idiom used throughout the
source, a single-space join applied to a no-argument split. -/
def collapseWs (l : List Char) : List Char := joinSp (pySplit l)

/-- The noise suffixes stripped by SongMatchingService.normalize_title
(services.py line 70), in source order. -/
def normSuffixes : List (List Char) :=
  [s2c " (official video)", s2c " (official audio)", s2c " (official)",
   s2c " (lyrics)", s2c " m/v", s2c " | lyrics"]

/-- The suffix loop of normalize_title: strip the first matching suffix
from the fixed list, then strip whitespace, and stop after the first
match (the loop breaks). -/
def stripOneSuffix : List (List Char) → List Char → List Char
  | [], t => t
  | s :: rest, t =>
    if s.isSuffixOf t then pyStrip (t.take (t.length - s.length))
    else stripOneSuffix rest t

/-- The character class kept by the substitution on services.py line 80.
The raw pattern in the source reads [^a-z0-9\\s] with a doubled
backslash, so the characters kept are the lowercase ASCII letters
(codepoints 97 to 122), the digits (48 to 57) and the backslash
(codepoint 92); every other character, whitespace included, is replaced
by a space. -/
def keepChar (c : Char) : Bool :=
  (97 ≤ c.toNat && c.toNat ≤ 122) || (48 ≤ c.toNat && c.toNat ≤ 57) ||
    c.toNat = 92

/-- Model of re.sub of the class above with a space, which rewrites each
character independently. -/
def subSpecial (l : List Char) : List Char :=
  l.map (fun c => if keepChar c then c else ' ')

/-- Embedding of SongMatchingService.normalize_title (services.py lines
61 to 82): empty guard, lowercase and strip, strip at most one noise
suffix, replace characters outside the kept class by spaces, collapse
whitespace. -/
def normalize_title (t : List Char) : List Char :=
  if t.isEmpty then []
  else
    collapseWs (subSpecial (stripOneSuffix normSuffixes (pyStrip (pyLower t))))

/-- Strict lexicographic comparison of character lists by codepoint,
modelling Python string comparison. -/
def lexLt : List Char → List Char → Bool
  | [], [] => false
  | [], _ :: _ => true
  | _ :: _, [] => false
  | a :: as, b :: bs =>
    if a.toNat < b.toNat then true
    else if b.toNat < a.toNat then false
    else lexLt as bs

/-- Model of the two-argument Python min on strings: the second argument
is returned exactly when it compares strictly smaller. -/
def pyMinStr (a b : List Char) : List Char := if lexLt b a then b else a

/-- Model of the Python substring test a in b. -/
def isSubstr (a b : List Char) : Bool :=
  b.tails.any (fun t => a.isPrefixOf t)

/-- The set of words of a normalized title, modelled as a deduplicated
list (services.py lines 43 and 44 build Python sets). -/
def wordSet (n : List Char) : List (List Char) := (pySplit n).dedup

/-- Cardinality of the intersection of the two word sets. -/
def overlapCount (n1 n2 : List Char) : Nat :=
  ((wordSet n1).filter (fun w => (wordSet n2).contains w)).length

/-- Cardinality of the union of the two word sets. -/
def unionCount (n1 n2 : List Char) : Nat :=
  ((wordSet n1) ++ (wordSet n2)).dedup.length

/-- The similarity test of services.py line 52: overlap divided by total
strictly above 0.7, stated exactly over the integers. -/
def jaccardGt (n1 n2 : List Char) : Bool :=
  10 * overlapCount n1 n2 > 7 * unionCount n1 n2

/-- Embedding of SongMatchingService.titles_match (services.py lines 26
to 59): exact normalized equality; otherwise the containment branch,
which fires only when the length of the Python min of the two normalized
strings, which is the lexicographically smaller one, exceeds 10;
otherwise the word-overlap test. -/
def titles_match (t1 t2 : List Char) : Bool :=
  let n1 := normalize_title t1
  let n2 := normalize_title t2
  if n1 = n2 then true
  else if (isSubstr n1 n2 || isSubstr n2 n1) &&
      decide ((pyMinStr n1 n2).length > 10) then true
  else if (wordSet n1).length > 0 && (wordSet n2).length > 0 then
    jaccardGt n1 n2
  else false

/-- The display prefixes stripped by clean_song_title (services.py line
93), in source order. -/
def cleanPrefixes : List (List Char) :=
  [s2c "Now Playing:", s2c "Current:", s2c "Playing:",
   s2c "♪", s2c "♫", s2c "🎵", s2c "🎶"]

/-- Embedding of SongMatchingService.clean_song_title (services.py lines
84 to 98): collapse whitespace, then walk the prefix list once, removing
each prefix that starts the current title. -/
def clean_song_title (t : List Char) : List Char :=
  if t.isEmpty then []
  else
    cleanPrefixes.foldl
      (fun acc p => if p.isPrefixOf acc then pyStrip (acc.drop p.length) else acc)
      (collapseWs t)

/-- Model of str.split with an explicit separator substring, restricted
to its first element: the prefix up to the first occurrence of the
separator. -/
def takeUntilSub (sep : List Char) : List Char → List Char
  | [] => []
  | c :: t => if sep.isPrefixOf (c :: t) then [] else c :: takeUntilSub sep t

/-- Model of a single-character str.join over a list of pieces. -/
def joinWithChar (sep : Char) : List (List Char) → List Char
  | [] => []
  | [w] => w
  | w :: ws => w ++ sep :: joinWithChar sep ws

/-- First-match association lookup, modelling a Python dict read over the
entries in insertion order. -/
def alookup (k : List Char) : List (List Char × List Char) → Option (List Char)
  | [] => none
  | (k2, v) :: rest => if k2 = k then some v else alookup k rest

/-- The test applied by every URL acceptance check in the source:
youtube.com or youtu.be occurs in the string. -/
def isYtUrl (u : List Char) : Bool :=
  isSubstr (s2c "youtube.com") u || isSubstr (s2c "youtu.be") u

/-- Embedding of SongRequest (music_queue/entities.py): the fields the
extraction strategies populate.  The capture timestamps are wall-clock
values outside the model. -/
structure SongRequest where
  title : List Char
  duration : Option (List Char) := none
  requester : Option (List Char) := none
  status : Option (List Char) := none
  youtube_url : List Char := []
  selector_used : List Char := []
  element_index : Nat := 0
deriving Repr, DecidableEq

/-- The dictionary each strategy assembles for one extracted record,
with exactly the keys SongRequest.from_dict reads. -/
structure SongDict where
  title : List Char
  duration : Option (List Char) := none
  requester : Option (List Char) := none
  status : Option (List Char) := none
  youtube_url : List Char := []
  selector_used : List Char := []
  element_index : Nat := 0
deriving Repr, DecidableEq

/-- Model of SongRequest.from_dict followed by construction validation
(entities.py __post_init__): a title that is empty after stripping
raises ValueError, modelled as none; otherwise the stripped title is
stored. -/
def SongRequest.from_dict (d : SongDict) : Option SongRequest :=
  if (pyStrip d.title).isEmpty then none
  else some ⟨pyStrip d.title, d.duration, d.requester, d.status,
             d.youtube_url, d.selector_used, d.element_index⟩

/-- Typed model of the heterogeneous values stored in the metadata map
of a result. -/
inductive MetaVal
  | nat (n : Nat)
  | strs (ss : List (List Char))
  | bool (b : Bool)
deriving Repr, DecidableEq

/-- Embedding of ExtractionResult (extraction_result.py).  The timestamp
field is wall-clock and outside the model; warnings and metadata default
to empty collections as in __post_init__. -/
structure ExtractionResult where
  songs : List SongRequest
  strategy_used : List Char
  selector_used : List Char
  element_count : Nat
  success : Bool := true
  error_message : Option (List Char) := none
  warnings : List (List Char) := []
  metadata : List (List Char × MetaVal) := []
deriving Repr, DecidableEq

/-- ExtractionResult.song_count. -/
def ExtractionResult.song_count (r : ExtractionResult) : Nat := r.songs.length

/-- ExtractionResult.create_success (lines 58 to 78). -/
def ExtractionResult.create_success (songs : List SongRequest)
    (strategy_used selector_used : List Char) (element_count : Nat) :
    ExtractionResult :=
  ⟨songs, strategy_used, selector_used, element_count, true, none, [], []⟩

/-- ExtractionResult.create_failure (lines 80 to 101). -/
def ExtractionResult.create_failure (error_message : List Char)
    (strategy_used selector_used : List Char) (element_count : Nat) :
    ExtractionResult :=
  ⟨[], strategy_used, selector_used, element_count, false, some error_message, [], []⟩

/-- ExtractionResult.add_metadata, appending one entry. -/
def ExtractionResult.add_metadata (r : ExtractionResult) (k : List Char)
    (v : MetaVal) : ExtractionResult :=
  ⟨r.songs, r.strategy_used, r.selector_used, r.element_count, r.success,
   r.error_message, r.warnings, r.metadata ++ [(k, v)]⟩

/-- ExtractionResult.add_warning. -/
def ExtractionResult.add_warning (r : ExtractionResult) (w : List Char) :
    ExtractionResult :=
  ⟨r.songs, r.strategy_used, r.selector_used, r.element_count, r.success,
   r.error_message, r.warnings ++ [w], r.metadata⟩

/-- Embedding of ExtractionConfig (extraction_config.py).  The last
three fields model the custom_attributes entries the source reads:
existing_youtube_urls and skip_existing_urls, set by the optimized
policy, and min_songs_for_success, read by the best-effort policy. -/
structure ExtractionConfig where
  min_title_length : Nat := 3
  max_title_length : Nat := 200
  skip_ui_text : Bool := true
  skip_empty_elements : Bool := true
  clean_titles : Bool := true
  extract_youtube_urls : Bool := true
  extract_metadata : Bool := true
  use_robust_finding : Bool := true
  try_direct_links : Bool := true
  try_button_click : Bool := true
  try_history_thumbnails : Bool := true
  try_javascript_extraction : Bool := true
  fallback_to_search : Bool := true
  mute_audio : Bool := true
  pause_videos : Bool := true
  close_new_tabs : Bool := true
  max_songs_per_strategy : Option Nat := none
  existing_youtube_urls : Option (List (List Char × List Char)) := none
  skip_existing_urls : Bool := false
  min_songs_for_success : Option Nat := none

/-- Model of config.get_custom_attribute with key existing_youtube_urls
and default empty dict. -/
def ExtractionConfig.existingUrls (c : ExtractionConfig) :
    List (List Char × List Char) :=
  c.existing_youtube_urls.getD []

/-- Embedding of ElementSelector (element_selector.py): the fields the
extraction core reads. -/
structure ElementSelector where
  selector : List Char
  priority : Int := 1
  is_fallback : Bool := false
deriving Repr, DecidableEq

/-- ElementSelector.is_table_row_selector: tr occurs in the lowercased
selector string. -/
def ElementSelector.is_table_row_selector (s : ElementSelector) : Bool :=
  isSubstr (s2c "tr") (pyLower s.selector)

/-- ElementSelector.is_youtube_link_selector. -/
def ElementSelector.is_youtube_link_selector (s : ElementSelector) : Bool :=
  [s2c "youtube", s2c "youtu.be", s2c "href*="].any
    (fun k => isSubstr k (pyLower s.selector))

/-- ASCII digit test, modelling the regex digit class over its ASCII
range. -/
def isDigitA (c : Char) : Bool := 48 ≤ c.toNat && c.toNat ≤ 57

/-- ASCII letter test, modelling the regex letter class [a-zA-Z]. -/
def isAsciiLetter (c : Char) : Bool :=
  (97 ≤ c.toNat && c.toNat ≤ 122) || (65 ≤ c.toNat && c.toNat ≤ 90)

/-- ASCII word-character test, modelling the regex word class over its
ASCII range: letters, digits and the underscore. -/
def isWordChar (c : Char) : Bool := isAsciiLetter c || isDigitA c || c = '_'

/-- The UI indicator substrings of is_ui_text (services.py lines 108 to
116), in source order. -/
def uiIndicators : List (List Char) :=
  [s2c "click", s2c "button", s2c "menu", s2c "login", s2c "sign",
   s2c "register", s2c "home", s2c "about", s2c "contact", s2c "help",
   s2c "settings", s2c "profile", s2c "search", s2c "filter", s2c "sort",
   s2c "view", s2c "show", s2c "hide", s2c "next", s2c "previous",
   s2c "back", s2c "forward", s2c "submit", s2c "cancel",
   s2c "song requests", s2c "moobot", s2c "refresh", s2c "queue",
   s2c "loading", s2c "error", s2c "song queue", s2c "song history",
   s2c "requested by", s2c "played", s2c "ago", s2c "by ",
   s2c "duration:", s2c "status:", s2c "page ", s2c "page"]

/-- The exact-match search UI strings (services.py line 132). -/
def searchUiPatterns : List (List Char) :=
  [s2c "search youtube", s2c "youtube search", s2c "search", s2c "youtube"]

/-- The exact-match single-word UI strings (services.py line 150). -/
def singleWordUi : List (List Char) :=
  [s2c "refresh", s2c "loading", s2c "error", s2c "menu", s2c "home",
   s2c "back"]

/-- Decidable matcher for the anchored pagination pattern: the word page,
optional whitespace, one or more digits, end of string. -/
def matchPageNum (l : List Char) : Bool :=
  if (s2c "page").isPrefixOf l then
    let r := (l.drop 4).dropWhile isPySpace
    !r.isEmpty && r.all isDigitA
  else false

/-- Decidable matcher for the anchored clock pattern: one or two digits,
a colon, exactly two digits, end of string. -/
def matchTime (l : List Char) : Bool :=
  match l with
  | [a, b, c, d] => isDigitA a && b = ':' && isDigitA c && isDigitA d
  | [a, b, c, d, e] => isDigitA a && isDigitA b && c = ':' && isDigitA d && isDigitA e
  | _ => false

/-- Consume one of the three time-unit words of the metadata pattern. -/
def matchTimeUnit (l : List Char) : Option (List Char) :=
  if (s2c "hour").isPrefixOf l then some (l.drop 4)
  else if (s2c "minute").isPrefixOf l then some (l.drop 6)
  else if (s2c "second").isPrefixOf l then some (l.drop 6)
  else none

/-- Exact matcher, running to the end of the string, for the tail of the
metadata pattern: one or more digits, whitespace, a time unit with an
optional plural s, whitespace, the word ago. -/
def matchAgoTail (l : List Char) : Bool :=
  let ds := l.takeWhile isDigitA
  let r1 := l.dropWhile isDigitA
  if ds.isEmpty then false
  else
    let sp := r1.takeWhile isPySpace
    let r2 := r1.dropWhile isPySpace
    if sp.isEmpty then false
    else
      match matchTimeUnit r2 with
      | none => false
      | some r3 =>
        let r4 := match r3 with
          | 's' :: t => t
          | t => t
        let sp2 := r4.takeWhile isPySpace
        !sp2.isEmpty && r4.dropWhile isPySpace = s2c "ago"

/-- The part of the metadata pattern after its keyword: whitespace, at
least one word character, then anything bridging to the ago tail at the
end of the string. -/
def matchByAgoFrom (r : List Char) : Bool :=
  let sp := r.takeWhile isPySpace
  let r1 := r.dropWhile isPySpace
  if sp.isEmpty then false
  else
    match r1 with
    | [] => false
    | c :: t => isWordChar c && t.tails.any matchAgoTail

/-- Decidable matcher for the anchored metadata pattern of services.py
line 142: one of the keywords by, requested by or played, whitespace, a
word, anything, digits, whitespace, a time unit, whitespace, ago. -/
def matchByAgo (l : List Char) : Bool :=
  ((s2c "by").isPrefixOf l && matchByAgoFrom (l.drop 2)) ||
  ((s2c "requested by").isPrefixOf l && matchByAgoFrom (l.drop 12)) ||
  ((s2c "played").isPrefixOf l && matchByAgoFrom (l.drop 6))

/-- Embedding of SongMatchingService.is_ui_text (services.py lines 100
to 154), with the checks in source order. -/
def is_ui_text (t : List Char) : Bool :=
  if t.isEmpty || decide (t.length > 100) then true
  else
    let tl := pyStrip (pyLower t)
    if uiIndicators.any (fun ind => isSubstr ind tl) then true
    else if matchPageNum tl then true
    else if (!tl.isEmpty && tl.all isDigitA) && decide (tl.length ≤ 3) then true
    else if searchUiPatterns.contains tl then true
    else if matchTime (pyStrip t) then true
    else if matchByAgo tl then true
    else if decide ((pyStrip t).length < 5) && !(t.any isAsciiLetter) then true
    else singleWordUi.contains tl

/-- The suffixes stripped by _search_youtube_url before building the
query (table_row_extraction_strategy.py line 604). -/
def searchSuffixes : List (List Char) :=
  [s2c " (Official Video)", s2c " (Official Audio)", s2c " (Official)",
   s2c " (Lyrics)", s2c " M/V"]

/-- Uppercase hexadecimal digit of a value below 16. -/
def hexDigit (n : Nat) : Char :=
  if n < 10 then Char.ofNat (48 + n) else Char.ofNat (55 + n)

/-- UTF-8 bytes of a codepoint, as used by percent-encoding. -/
def utf8Bytes (n : Nat) : List Nat :=
  if n < 128 then [n]
  else if n < 2048 then [192 + n / 64, 128 + n % 64]
  else if n < 65536 then [224 + n / 4096, 128 + (n / 64) % 64, 128 + n % 64]
  else [240 + n / 262144, 128 + (n / 4096) % 64, 128 + (n / 64) % 64, 128 + n % 64]

/-- Model of urllib.parse.quote_plus on one character: the always-safe
characters pass through, a space becomes a plus, everything else is
percent-encoded byte by byte. -/
def quotePlusChar (c : Char) : List Char :=
  if isAsciiLetter c || isDigitA c || c = '_' || c = '.' || c = '-' || c = '~' then [c]
  else if c = ' ' then ['+']
  else (utf8Bytes c.toNat).foldr
    (fun b acc => '%' :: hexDigit (b / 16) :: hexDigit (b % 16) :: acc) []

/-- Model of urllib.parse.quote_plus. -/
def quotePlus (l : List Char) : List Char :=
  (l.map quotePlusChar).flatten

/-- Embedding of _search_youtube_url (table_row_extraction_strategy.py
lines 598 to 618): strip, remove at most one known suffix, build the
fixed search URL from the percent-encoded query. -/
def search_youtube_url (song_title : List Char) : List Char :=
  s2c "https://www.youtube.com/results?search_query=" ++
    quotePlus (stripOneSuffix searchSuffixes (pyStrip song_title))

/-- The techniques of the URL resolution cascade, used to record, per
row, which techniques ran and in which order. -/
inductive CascadeStep
  | directAttr
  | clickSim
  | jsInspect
  | historyScan
  | searchFallback
deriving Repr, DecidableEq

/-- Stub for the link control of one row: the attribute values the page
would answer, and the outcomes of the two button techniques.  A none
button in RowStub models the control lookup raising. -/
structure ButtonStub where
  data_url : Option (List Char) := none
  href : Option (List Char) := none
deriving Repr, DecidableEq

/-- Stub for one table row together with the driver answers its
processing consumes.  clickResult and jsResult are the values the
click-simulation and scripted-inspection techniques would return for
this control (empty means the technique found nothing or raised, which
the source treats alike); historyResult is the value the history
thumbnail scan would return for this title; fault injects a raise inside
the per-row body, caught by its handler. -/
structure RowStub where
  titleText : Option (List Char) := none
  rowText : List Char := []
  labels : List (List Char) := []
  button : Option ButtonStub := none
  clickResult : List Char := []
  jsResult : List Char := []
  historyResult : List Char := []
  fault : Bool := false
deriving Repr, DecidableEq

/-- Embedding of _extract_youtube_url_from_button
(table_row_extraction_strategy.py lines 411 to 436), also returning the
techniques run, in order.  Method 1 is the button click, Method 2 the
scripted inspection; the search fallback is terminal inside this
function. -/
def extract_youtube_url_from_button (row : RowStub) (song_title : List Char)
    (config : ExtractionConfig) : List Char × List CascadeStep :=
  let r1 : List Char × List CascadeStep :=
    if config.try_button_click then (row.clickResult, [CascadeStep.clickSim])
    else ([], [])
  if r1.1 ≠ [] then r1
  else
    let t2 := if config.try_javascript_extraction then r1.2 ++ [CascadeStep.jsInspect] else r1.2
    let u2 := if config.try_javascript_extraction then row.jsResult else []
    if u2 ≠ [] then (u2, t2)
    else if config.fallback_to_search then
      (search_youtube_url song_title, t2 ++ [CascadeStep.searchFallback])
    else ([], t2)

/-- Methods 2 and 3 of _extract_youtube_url_comprehensive (lines 397 to
409): the history thumbnail scan, then the terminal search fallback. -/
def cascadeTail (row : RowStub) (song_title : List Char)
    (config : ExtractionConfig) (acc : List CascadeStep) :
    List Char × List CascadeStep :=
  if config.try_history_thumbnails then
    if row.historyResult ≠ [] then (row.historyResult, acc ++ [CascadeStep.historyScan])
    else if config.fallback_to_search then
      (search_youtube_url song_title, acc ++ [CascadeStep.historyScan, CascadeStep.searchFallback])
    else ([], acc ++ [CascadeStep.historyScan])
  else if config.fallback_to_search then
    (search_youtube_url song_title, acc ++ [CascadeStep.searchFallback])
  else ([], acc)

/-- Embedding of _extract_youtube_url_comprehensive (lines 361 to 409)
over the row stub, also returning the techniques run, in order.  Method
1 reads the direct attributes (data-url, then href) and, when a button
technique is enabled, runs _extract_youtube_url_from_button; a missing
control is a raise caught by the handler around Method 1. -/
def extract_youtube_url_comprehensive (row : RowStub)
    (song_title : List Char) (config : ExtractionConfig) :
    List Char × List CascadeStep :=
  if config.try_direct_links then
    match row.button with
    | none => cascadeTail row song_title config [CascadeStep.directAttr]
    | some b =>
      if (match b.data_url with
          | some d => !d.isEmpty && isYtUrl d
          | none => false) then
        (b.data_url.getD [], [CascadeStep.directAttr])
      else if (match b.href with
          | some h => !h.isEmpty && isYtUrl h
          | none => false) then
        (b.href.getD [], [CascadeStep.directAttr])
      else if config.try_button_click || config.try_javascript_extraction then
        let r := extract_youtube_url_from_button row song_title config
        if r.1 ≠ [] then (r.1, CascadeStep.directAttr :: r.2)
        else cascadeTail row song_title config (CascadeStep.directAttr :: r.2)
      else cascadeTail row song_title config [CascadeStep.directAttr]
  else cascadeTail row song_title config []

/-- The value each cascade technique would yield on this row, used to
state the short-circuit property: a technique standing before the last
entry of the trace yielded nothing. -/
def stepYield (row : RowStub) (song_title : List Char) :
    CascadeStep → List Char
  | CascadeStep.directAttr =>
    match row.button with
    | none => []
    | some b =>
      if (match b.data_url with
          | some d => !d.isEmpty && isYtUrl d
          | none => false) then b.data_url.getD []
      else if (match b.href with
          | some h => !h.isEmpty && isYtUrl h
          | none => false) then b.href.getD []
      else []
  | CascadeStep.clickSim => row.clickResult
  | CascadeStep.jsInspect => row.jsResult
  | CascadeStep.historyScan => row.historyResult
  | CascadeStep.searchFallback => search_youtube_url song_title

/-- Embedding of _extract_youtube_url_simple (lines 336 to 359): the
direct data-url attribute of the link control, else the search fallback
when configured. -/
def extract_youtube_url_simple (row : RowStub) (song_title : List Char)
    (config : ExtractionConfig) : List Char × List CascadeStep :=
  let r1 : List Char × List CascadeStep :=
    if config.try_direct_links then
      match row.button with
      | none => ([], [CascadeStep.directAttr])
      | some b =>
        if (match b.data_url with
            | some d => !d.isEmpty && isYtUrl d
            | none => false) then (b.data_url.getD [], [CascadeStep.directAttr])
        else ([], [CascadeStep.directAttr])
    else ([], [])
  if r1.1 ≠ [] then r1
  else if config.fallback_to_search then
    (search_youtube_url song_title, r1.2 ++ [CascadeStep.searchFallback])
  else ([], r1.2)

/-- The window state of the automation session: the open context handles
in creation order and the context the driver currently addresses. -/
structure DriverWindows where
  windows : List Nat
  current : Nat
deriving Repr, DecidableEq

/-- Stub for one click simulation: the context the click opens together
with the location that context would report, and fault injection for the
click itself and for the location read. -/
structure ClickEnv where
  opened : Option (Nat × List Char) := none
  clickRaises : Bool := false
  urlReadRaises : Bool := false
deriving Repr, DecidableEq

/-- The recovery step of the exception handler of
_extract_via_button_click (lines 478 to 482): switch to the first handle
of the current window list, swallowing a failure when there is none. -/
def exceptRestore (st : DriverWindows) : DriverWindows :=
  match st.windows with
  | [] => st
  | w :: _ => ⟨st.windows, w⟩

/-- Embedding of _extract_via_button_click (lines 438 to 484) as a state
transformer on the window state: click, detect a newly opened context,
switch into it, read its location, and close and switch back only when
close_new_tabs is set.  Media suppression (lines 576 to 596) swallows
its own faults and does not change the window state. -/
def extract_via_button_click (st : DriverWindows) (env : ClickEnv)
    (config : ExtractionConfig) : List Char × DriverWindows :=
  if env.clickRaises then ([], exceptRestore st)
  else
    match env.opened with
    | none => ([], st)
    | some (h, u) =>
      let stIn : DriverWindows := ⟨st.windows ++ [h], h⟩
      if env.urlReadRaises then ([], exceptRestore stIn)
      else if config.close_new_tabs then
        let closed := (st.windows ++ [h]).erase h
        match st.windows with
        | [] => ([], exceptRestore ⟨closed, h⟩)
        | w0 :: _ =>
          if isYtUrl u then (u, ⟨closed, w0⟩) else ([], ⟨closed, w0⟩)
      else
        if isYtUrl u then (u, stIn) else ([], stIn)

/-- The label classification loop of the robust row extractor (lines 292
to 300): duration for a short colon-bearing label, requester for a label
starting with By and a space, status for a label containing a status
keyword; later labels overwrite earlier ones of the same kind. -/
def labelScanRobust (labels : List (List Char)) :
    List Char × List Char × List Char :=
  labels.foldl
    (fun acc lab =>
      let lt := pyStrip lab
      if isSubstr (s2c ":") lt && decide (lt.length < 10) then (lt, acc.2.1, acc.2.2)
      else if (s2c "By ").isPrefixOf lt then (acc.1, lt, acc.2.2)
      else if [s2c "Playing", s2c "next", s2c "minutes"].any (fun w => isSubstr w lt) then
        (acc.1, acc.2.1, lt)
      else acc)
    ([], [], [])

/-- The label classification loop of the simple row extractor (lines 191
to 199), which tests the requester marker as a substring rather than a
prefix. -/
def labelScanSimple (labels : List (List Char)) :
    List Char × List Char × List Char :=
  labels.foldl
    (fun acc lab =>
      let lt := pyStrip lab
      if isSubstr (s2c ":") lt && decide (lt.length < 10) then (lt, acc.2.1, acc.2.2)
      else if isSubstr (s2c "By ") lt then (acc.1, lt, acc.2.2)
      else if [s2c "Playing", s2c "next", s2c "minutes"].any (fun w => isSubstr w lt) then
        (acc.1, acc.2.1, lt)
      else acc)
    ([], [], [])

/-- The raw title of a row in robust mode (lines 263 to 271): the text
of the nested title element, or, when that lookup raises, the part of
the stripped row text before the first occurrence of the two-character
sequence backslash n — the separator literal in the source is escaped,
so the split separator is not a newline. -/
def rowTitleRaw (row : RowStub) : List Char :=
  match row.titleText with
  | some tt => pyStrip tt
  | none =>
    if (pyStrip row.rowText).isEmpty then []
    else takeUntilSub (s2c "\\n") (pyStrip row.rowText)

/-- Embedding of _extract_from_table_row_robust (lines 245 to 334): the
row collection is re-queried and the access is skipped when the index is
out of range; then filtering, cleaning, metadata classification and URL
resolution, reusing a known URL from the config side channel when the
lowercased title is one of its keys.  The second component records the
cascade techniques run for this row. -/
def extract_from_table_row_robust (rows : List RowStub) (selector : List Char)
    (row_index : Nat) (config : ExtractionConfig) :
    Option SongDict × List CascadeStep :=
  if h : row_index < rows.length then
    let row := rows.get ⟨row_index, h⟩
    if row.fault then (none, [])
    else
      let title0 := rowTitleRaw row
      if title0.isEmpty || decide (title0.length < config.min_title_length) then (none, [])
      else if config.skip_ui_text && is_ui_text title0 then (none, [])
      else
        let title := if config.clean_titles then clean_song_title title0 else title0
        let meta := if config.extract_metadata then labelScanRobust row.labels else ([], [], [])
        let urlTrace :=
          if config.extract_youtube_urls then
            match alookup (pyLower title) config.existingUrls with
            | some u => (u, ([] : List CascadeStep))
            | none => extract_youtube_url_comprehensive row title config
          else ([], [])
        (some ⟨title, some meta.1, some meta.2.1, some meta.2.2,
               urlTrace.1, selector, row_index⟩, urlTrace.2)
  else (none, [])

/-- Embedding of _extract_from_table_row (lines 152 to 243), the simple
per-row extractor over a cached element; its record stores the literal
selector string tr. -/
def extract_from_table_row_simple (row : RowStub) (index : Nat)
    (config : ExtractionConfig) : Option SongDict × List CascadeStep :=
  if row.fault then (none, [])
  else
    match row.titleText with
    | none => (none, [])
    | some tt =>
      let title0 := pyStrip tt
      if title0.isEmpty || decide (title0.length < config.min_title_length) then (none, [])
      else if config.skip_ui_text && is_ui_text title0 then (none, [])
      else
        let title := if config.clean_titles then clean_song_title title0 else title0
        let meta := if config.extract_metadata then labelScanSimple row.labels else ([], [], [])
        let urlTrace :=
          if config.extract_youtube_urls then
            match alookup (pyLower title) config.existingUrls with
            | some u => (u, ([] : List CascadeStep))
            | none => extract_youtube_url_simple row title config
          else ([], [])
        (some ⟨title, some meta.1, some meta.2.1, some meta.2.2,
               urlTrace.1, s2c "tr", index⟩, urlTrace.2)

/-- Stub for the table-row DOM: rowsAt n is the row collection returned
by the nth find_elements call of a run (the collection mutates between
calls); findFails injects a raise into the initial query. -/
structure TableDom where
  findFails : Option (List Char) := none
  rowsAt : Nat → List RowStub

/-- One iteration of the robust table loop (lines 122 to 136): the row
is re-queried, its dict converted to a record, and a construction fault
is caught and skipped. -/
def tableRobustStep (dom : TableDom) (selector : List Char)
    (config : ExtractionConfig) (acc : List SongRequest × List CascadeStep)
    (i : Nat) : List SongRequest × List CascadeStep :=
  let r := extract_from_table_row_robust (dom.rowsAt (i + 1)) selector i config
  match r.1 with
  | none => (acc.1, acc.2 ++ r.2)
  | some d =>
    match SongRequest.from_dict d with
    | none => (acc.1, acc.2 ++ r.2)
    | some sr => (acc.1 ++ [sr], acc.2 ++ r.2)

/-- Embedding of _extract_songs_robust for the table strategy (lines 107
to 150). -/
def extract_songs_robust_table (dom : TableDom) (selector : ElementSelector)
    (config : ExtractionConfig) : ExtractionResult × List CascadeStep :=
  match dom.findFails with
  | some msg =>
    (ExtractionResult.create_failure msg (s2c "table_row") selector.selector 0, [])
  | none =>
    let count := (dom.rowsAt 0).length
    let res := (List.range count).foldl (tableRobustStep dom selector.selector config) ([], [])
    (ExtractionResult.create_success res.1 (s2c "table_row") selector.selector count, res.2)

/-- One iteration of the simple table loop (lines 77 to 91). -/
def tableSimpleStep (config : ExtractionConfig)
    (acc : List SongRequest × List CascadeStep) (p : Nat × RowStub) :
    List SongRequest × List CascadeStep :=
  let r := extract_from_table_row_simple p.2 p.1 config
  match r.1 with
  | none => (acc.1, acc.2 ++ r.2)
  | some d =>
    match SongRequest.from_dict d with
    | none => (acc.1, acc.2 ++ r.2)
    | some sr => (acc.1 ++ [sr], acc.2 ++ r.2)

/-- Embedding of _extract_songs_simple for the table strategy (lines 63
to 105). -/
def extract_songs_simple_table (dom : TableDom) (selector : ElementSelector)
    (config : ExtractionConfig) : ExtractionResult × List CascadeStep :=
  match dom.findFails with
  | some msg =>
    (ExtractionResult.create_failure msg (s2c "table_row") selector.selector 0, [])
  | none =>
    let elems := dom.rowsAt 0
    let res := elems.enum.foldl (tableSimpleStep config) ([], [])
    (ExtractionResult.create_success res.1 (s2c "table_row") selector.selector elems.length, res.2)

/-- Embedding of TableRowExtractionStrategy.extract_songs (lines 42 to
61): robust or simple by configuration; the surrounding handler makes
any residual fault a failure result, and both branches already return
results. -/
def table_extract_songs (dom : TableDom) (selector : ElementSelector)
    (config : ExtractionConfig) : ExtractionResult × List CascadeStep :=
  if config.use_robust_finding then extract_songs_robust_table dom selector config
  else extract_songs_simple_table dom selector config

/-- Stub for one general element: its text, the href attributes of its
nested anchors in document order, the text of the anchor the simple
variant looks up by href (none models that lookup raising), and fault
injection for the element body. -/
structure ElemStub where
  text : List Char := []
  hrefs : List (Option (List Char)) := []
  xpathText : Option (List Char) := none
  fault : Bool := false
deriving Repr, DecidableEq

/-- Stub for the general-element DOM, analogous to TableDom. -/
structure ElemDom where
  findFails : Option (List Char) := none
  elemsAt : Nat → List ElemStub

/-- The nested-anchor scan of the general strategy: first non-empty href
containing a known video-host domain (break on first hit). -/
def firstYtHref : List (Option (List Char)) → List Char
  | [] => []
  | none :: rest => firstYtHref rest
  | some h :: rest => if !h.isEmpty && isYtUrl h then h else firstYtHref rest

/-- Embedding of _extract_from_element_robust
(general_element_extraction_strategy.py lines 231 to 290): re-query by
index with silent skip when out of range, then text, anchor scan,
cleaning and filtering. -/
def extract_from_element_robust (elems : List ElemStub) (selector : List Char)
    (element_index : Nat) (config : ExtractionConfig) : Option SongDict :=
  if h : element_index < elems.length then
    let e := elems.get ⟨element_index, h⟩
    if e.fault then none
    else
      let element_text := pyStrip e.text
      if config.skip_empty_elements && decide (element_text.length < config.min_title_length) then none
      else
        let youtube_url := if config.extract_youtube_urls then firstYtHref e.hrefs else []
        let title := if config.clean_titles then clean_song_title element_text else element_text
        if decide (title.length < config.min_title_length) then none
        else if decide (title.length > config.max_title_length) then none
        else if config.skip_ui_text && is_ui_text title then none
        else some ⟨title, none, none, none, youtube_url, selector, element_index⟩
  else none

/-- Embedding of _extract_from_element (lines 160 to 229), the simple
variant, which prefers the text of the anchor bearing the found URL. -/
def extract_from_element_simple (e : ElemStub) (index : Nat)
    (selector : List Char) (config : ExtractionConfig) : Option SongDict :=
  if e.fault then none
  else
    let element_text := pyStrip e.text
    if config.skip_empty_elements && decide (element_text.length < config.min_title_length) then none
    else
      let youtube_url := if config.extract_youtube_urls then firstYtHref e.hrefs else []
      let title0 :=
        if !youtube_url.isEmpty then
          match e.xpathText with
          | some t => pyStrip t
          | none => []
        else []
      let title1 := if title0.isEmpty then element_text else title0
      let title := if config.clean_titles then clean_song_title title1 else title1
      if decide (title.length < config.min_title_length) then none
      else if decide (title.length > config.max_title_length) then none
      else if config.skip_ui_text && is_ui_text title then none
      else some ⟨title, none, none, none, youtube_url, selector, index⟩

/-- Truthy cap test of the per-strategy limit: Python treats a zero or
absent cap as no cap. -/
def capReached (cap : Option Nat) (n : Nat) : Bool :=
  match cap with
  | some c => decide (0 < c) && decide (n ≥ c)
  | none => false

/-- One iteration of the robust general loop (lines 125 to 144), with
the cap break modelled by a stop flag. -/
def generalRobustStep (dom : ElemDom) (selector : List Char)
    (config : ExtractionConfig) (acc : List SongRequest × Bool) (i : Nat) :
    List SongRequest × Bool :=
  if acc.2 then acc
  else
    match extract_from_element_robust (dom.elemsAt (i + 1)) selector i config with
    | none => acc
    | some d =>
      match SongRequest.from_dict d with
      | none => acc
      | some sr =>
        let songs := acc.1 ++ [sr]
        (songs, capReached config.max_songs_per_strategy songs.length)

/-- Embedding of _extract_songs_robust for the general strategy (lines
108 to 158). -/
def extract_songs_robust_general (dom : ElemDom) (selector : ElementSelector)
    (config : ExtractionConfig) : ExtractionResult :=
  match dom.findFails with
  | some msg =>
    ExtractionResult.create_failure msg (s2c "general_element") selector.selector 0
  | none =>
    let count := (dom.elemsAt 0).length
    let res := (List.range count).foldl (generalRobustStep dom selector.selector config) ([], false)
    ExtractionResult.create_success res.1 (s2c "general_element") selector.selector count

/-- One iteration of the simple general loop (lines 74 to 93). -/
def generalSimpleStep (selector : List Char) (config : ExtractionConfig)
    (acc : List SongRequest × Bool) (p : Nat × ElemStub) :
    List SongRequest × Bool :=
  if acc.2 then acc
  else
    match extract_from_element_simple p.2 p.1 selector config with
    | none => acc
    | some d =>
      match SongRequest.from_dict d with
      | none => acc
      | some sr =>
        let songs := acc.1 ++ [sr]
        (songs, capReached config.max_songs_per_strategy songs.length)

/-- Embedding of _extract_songs_simple for the general strategy (lines
61 to 106). -/
def extract_songs_simple_general (dom : ElemDom) (selector : ElementSelector)
    (config : ExtractionConfig) : ExtractionResult :=
  match dom.findFails with
  | some msg =>
    ExtractionResult.create_failure msg (s2c "general_element") selector.selector 0
  | none =>
    let elems := dom.elemsAt 0
    let res := elems.enum.foldl (generalSimpleStep selector.selector config) ([], false)
    ExtractionResult.create_success res.1 (s2c "general_element") selector.selector elems.length

/-- Embedding of GeneralElementExtractionStrategy.extract_songs (lines
40 to 59). -/
def general_extract_songs (dom : ElemDom) (selector : ElementSelector)
    (config : ExtractionConfig) : ExtractionResult :=
  if config.use_robust_finding then extract_songs_robust_general dom selector config
  else extract_songs_simple_general dom selector config

/-- Stub for one anchor of the YouTube-link strategy. -/
structure LinkStub where
  href : Option (List Char) := none
  text : List Char := []
  parentText : Option (List Char) := none
  fault : Bool := false
deriving Repr, DecidableEq

/-- Stub for the YouTube-link DOM. -/
structure LinkDom where
  findFails : Option (List Char) := none
  links : List LinkStub := []

/-- Model of str.replace with an empty replacement: remove every
non-overlapping occurrence of the pattern, left to right. -/
def removeAllSub (pat : List Char) (l : List Char) : List Char :=
  match l with
  | [] => []
  | c :: t =>
    if hp : !pat.isEmpty && pat.isPrefixOf (c :: t) then
      removeAllSub pat ((c :: t).drop pat.length)
    else c :: removeAllSub pat t
termination_by l.length
decreasing_by
  · have h1 : 1 ≤ pat.length := by
      cases pat with
      | nil => simp at hp
      | cons a b => simp
    simp [List.length_drop]
    omega
  · simp

/-- Embedding of _extract_from_youtube_link
(youtube_link_extraction_strategy.py lines 108 to 177).  The video-id
metadata assembled at lines 148 to 152 is dropped by
SongRequest.from_dict and does not reach the record. -/
def extract_from_youtube_link (link : LinkStub) (index : Nat)
    (selector : List Char) (config : ExtractionConfig) : Option SongDict :=
  if link.fault then none
  else
    match link.href with
    | none => none
    | some href =>
      if href.isEmpty || !isYtUrl href then none
      else
        let title0 := pyStrip link.text
        let title1 :=
          if title0.isEmpty || isSubstr href title0 then
            match link.parentText with
            | some pt =>
              let t := pyStrip pt
              if isSubstr href t then pyStrip (removeAllSub href t) else t
            | none => s2c "Unknown Song"
          else title0
        let title := if config.clean_titles then clean_song_title title1 else title1
        if decide (title.length < config.min_title_length) then none
        else if decide (title.length > config.max_title_length) then none
        else if config.skip_ui_text && is_ui_text title then none
        else some ⟨title, none, none, none, href, selector, index⟩

/-- One iteration of the YouTube-link loop (lines 73 to 90). -/
def linkStep (selector : List Char) (config : ExtractionConfig)
    (acc : List SongRequest × Bool) (p : Nat × LinkStub) :
    List SongRequest × Bool :=
  if acc.2 then acc
  else
    match extract_from_youtube_link p.2 p.1 selector config with
    | none => acc
    | some d =>
      match SongRequest.from_dict d with
      | none => acc
      | some sr =>
        let songs := acc.1 ++ [sr]
        (songs, capReached config.max_songs_per_strategy songs.length)

/-- Embedding of YouTubeLinkExtractionStrategy.extract_songs together
with _extract_songs_from_links (lines 39 to 106). -/
def link_extract_songs (dom : LinkDom) (selector : ElementSelector)
    (config : ExtractionConfig) : ExtractionResult :=
  match dom.findFails with
  | some msg =>
    ExtractionResult.create_failure msg (s2c "youtube_link") selector.selector 0
  | none =>
    let res := dom.links.enum.foldl (linkStep selector.selector config) ([], false)
    ExtractionResult.create_success res.1 (s2c "youtube_link") selector.selector dom.links.length

/-- The exact-phrase skip list of the text-parsing line filter
(text_parsing_extraction_strategy.py lines 205 to 208). -/
def skipPhrases : List (List Char) :=
  [s2c "loading", s2c "please wait", s2c "error", s2c "not found",
   s2c "no results", s2c "empty", s2c "none", s2c "null"]

/-- The UI words of the text-parsing line filter (lines 193 to 196). -/
def textUiWords : List (List Char) :=
  [s2c "click", s2c "toggle", s2c "menu", s2c "button", s2c "login",
   s2c "sign up", s2c "home", s2c "about", s2c "contact", s2c "help",
   s2c "settings"]

/-- Embedding of _is_potential_song_line (lines 182 to 214): a line
passes when none of the skip patterns hits.  The density count follows
the source precedence: a digit, or a non-alphanumeric other than a
space. -/
def is_potential_song_line (l : List Char) (config : ExtractionConfig) : Bool :=
  if l.isEmpty || decide ((pyStrip l).length < config.min_title_length) then false
  else
    let p1 := [s2c "http", s2c "www", s2c "ftp"].any (fun k => k.isPrefixOf l)
    let p2 := textUiWords.any (fun w => isSubstr w (pyLower l))
    let p3 := decide ((pyStrip l).length < 5)
    let p4 := decide ((l.filter (fun c => isDigitA c || (!c.isAlphanum && c ≠ ' '))).length > l.length / 2)
    let p5 := skipPhrases.contains (pyStrip (pyLower l))
    let p6 := decide (((pySplit (pyLower l)).dedup).length < max 1 ((pySplit l).length / 3))
    !(p1 || p2 || p3 || p4 || p5 || p6)

/-- One iteration of _parse_text_for_songs (lines 132 to 178): strip the
line, filter, clean, bound, deduplicate by the lowercased cleaned text,
and stop at fifty records. -/
def parseTextStep (config : ExtractionConfig)
    (acc : List SongDict × List (List Char) × Bool) (p : Nat × List Char) :
    List SongDict × List (List Char) × Bool :=
  if acc.2.2 then acc
  else
    let line := pyStrip p.2
    if !is_potential_song_line line config then acc
    else
      let clean_line := if config.clean_titles then clean_song_title line else line
      if decide (clean_line.length < config.min_title_length) then acc
      else if decide (clean_line.length > config.max_title_length) then acc
      else if config.skip_ui_text && is_ui_text clean_line then acc
      else
        let cl := pyLower clean_line
        if acc.2.1.contains cl then acc
        else
          let songs2 := acc.1 ++ [(⟨clean_line, none, none, none, [],
            s2c "text_parsing", p.1⟩ : SongDict)]
          (songs2, acc.2.1 ++ [cl], decide (songs2.length ≥ 50))

/-- Embedding of _parse_text_for_songs (lines 117 to 180): split the
text into lines at newlines and walk them with their indices. -/
def parse_text_for_songs (text : List Char) (config : ExtractionConfig) :
    List SongDict :=
  if text.isEmpty || (pyStrip text).isEmpty then []
  else ((text.splitOn '\n').enum.foldl (parseTextStep config) ([], [], false)).1

/-- Stub for the text-parsing DOM: the whole-page body text and the
texts of the matched elements. -/
structure TextDom where
  findFails : Option (List Char) := none
  bodyText : List Char := []
  elemTexts : List (List Char) := []

/-- The text selection of _extract_songs_from_text (lines 67 to 75):
whole-page text for the body or wildcard selector, else the
newline-join of the non-blank element texts. -/
def text_page_text (dom : TextDom) (selector : ElementSelector) : List Char :=
  if selector.selector = s2c "body" || selector.selector = s2c "*" then dom.bodyText
  else joinWithChar '\n' (dom.elemTexts.filter (fun t => !(pyStrip t).isEmpty))

/-- Embedding of TextParsingExtractionStrategy.extract_songs together
with _extract_songs_from_text (lines 39 to 115): parse the page text,
convert the dicts with the per-strategy cap, and record the two metadata
entries; the element count is the constant one. -/
def text_extract_songs (dom : TextDom) (selector : ElementSelector)
    (config : ExtractionConfig) : ExtractionResult :=
  match dom.findFails with
  | some msg =>
    ExtractionResult.create_failure msg (s2c "text_parsing") selector.selector 0
  | none =>
    let page_text := text_page_text dom selector
    let dicts := parse_text_for_songs page_text config
    let conv := dicts.foldl
      (fun (acc : List SongRequest × Bool) d =>
        if acc.2 then acc
        else
          match SongRequest.from_dict d with
          | none => acc
          | some sr =>
            let s2 := acc.1 ++ [sr]
            (s2, capReached config.max_songs_per_strategy s2.length))
      ([], false)
    let base := ExtractionResult.create_success conv.1 (s2c "text_parsing") selector.selector 1
    (base.add_metadata (s2c "text_length") (MetaVal.nat page_text.length)).add_metadata
      (s2c "lines_processed") (MetaVal.nat (page_text.splitOn '\n').length)

/-- The four concrete strategies of the coordinator. -/
inductive StratId
  | table_row
  | youtube_link
  | general_element
  | text_parsing
deriving Repr, DecidableEq

/-- Strategy name strings. -/
def stratName : StratId → List Char
  | StratId.table_row => s2c "table_row"
  | StratId.youtube_link => s2c "youtube_link"
  | StratId.general_element => s2c "general_element"
  | StratId.text_parsing => s2c "text_parsing"

/-- can_handle of the four strategies. -/
def can_handle : StratId → ElementSelector → Bool
  | StratId.table_row, sel => sel.is_table_row_selector
  | StratId.youtube_link, sel => sel.is_youtube_link_selector
  | StratId.general_element, sel =>
    !sel.is_table_row_selector && !sel.is_youtube_link_selector
  | StratId.text_parsing, sel => sel.is_fallback || decide (sel.priority ≤ 2)

/-- validate_config of the four strategies: each override only logs and
returns True. -/
def validate_config : StratId → ExtractionConfig → Bool := fun _ _ => true

/-- The strategy collection held by the coordinator, already in the
descending priority order produced by the constructor sort
(extraction_coordinator.py lines 38 to 46). -/
def coordinatorStrategies : List StratId :=
  [StratId.table_row, StratId.youtube_link, StratId.general_element,
   StratId.text_parsing]

/-- Stable insertion into a descending-sorted list: the element passes
items with a key at least as large, so equal keys keep their original
order, matching the stable Python sort with reverse set. -/
def insertDescBy {α : Type} (key : α → Int) (x : α) : List α → List α
  | [] => [x]
  | y :: t => if key x > key y then x :: y :: t else y :: insertDescBy key x t

/-- Stable descending sort by an integer key, modelling sorted with
reverse set. -/
def sortDescBy {α : Type} (key : α → Int) (l : List α) : List α :=
  l.foldl (fun acc x => insertDescBy key x acc) []

/-- The strategy-priority table used by the merge and the best-effort
tie break (lines 291 to 296 and 346 to 351), keyed by the name string
with default zero. -/
def strategyPriorityOf (name : List Char) : Nat :=
  if name = s2c "table_row" then 10
  else if name = s2c "youtube_link" then 8
  else if name = s2c "general_element" then 5
  else if name = s2c "text_parsing" then 1
  else 0

/-- An execution oracle standing for one strategy run against the live
driver: what strategy.extract_songs would return for this strategy,
selector and config, or the exception it would raise. -/
def Exec : Type :=
  StratId → ElementSelector → ExtractionConfig → Except (List Char) ExtractionResult

/-- Embedding of extract_songs_comprehensive (lines 50 to 105): walk the
selectors in stable descending priority order, run every compatible and
validated strategy, and convert a raised exception into a failure
result. -/
def extract_songs_comprehensive (exec : Exec)
    (selectors : List ElementSelector) (config : ExtractionConfig) :
    List ExtractionResult :=
  (sortDescBy (fun s : ElementSelector => s.priority) selectors).foldl
    (fun all sel =>
      (coordinatorStrategies.filter
        (fun st => can_handle st sel && validate_config st config)).foldl
        (fun all2 st =>
          match exec st sel config with
          | Except.ok r => all2 ++ [r]
          | Except.error e =>
            all2 ++ [ExtractionResult.create_failure e (stratName st) sel.selector 0])
        all)
    []

/-- songs_match of the matching service, delegating to titles_match. -/
def songs_match (a b : SongRequest) : Bool := titles_match a.title b.title

/-- The acceptance step of the merge: a song joins the output only when
it does not match any already accepted song. -/
def dedupeStep (all : List SongRequest) (song : SongRequest) : List SongRequest :=
  if all.any (fun ex => songs_match song ex) then all else all ++ [song]

/-- Embedding of _combine_and_deduplicate_songs (lines 275 to 319): keep
the successful results, stable-sort them descending by the strategy
priority table, and walk their songs through the acceptance step. -/
def combine_and_deduplicate_songs (results : List ExtractionResult) :
    List SongRequest :=
  let succ := results.filter (fun r => r.success)
  let sorted := sortDescBy (fun r => (strategyPriorityOf r.strategy_used : Int)) succ
  sorted.foldl (fun all r => r.songs.foldl dedupeStep all) []

/-- Embedding of extract_songs_deduplicated (lines 107 to 159): run the
comprehensive policy, merge, and build one success result carrying the
summary metadata and the per-source warnings.  The Python set used for
the contributing name lists has no specified order; it is modelled by
first-occurrence deduplication. -/
def extract_songs_deduplicated (exec : Exec)
    (selectors : List ElementSelector) (config : ExtractionConfig) :
    ExtractionResult :=
  let all := extract_songs_comprehensive exec selectors config
  let combined := combine_and_deduplicate_songs all
  let total_elements := (all.map (fun r => r.element_count)).sum
  let strategies_used := (all.map (fun r => r.strategy_used)).dedup
  let selectors_used := (all.map (fun r => r.selector_used)).dedup
  let base := ExtractionResult.create_success combined
    (s2c "coordinator(" ++ joinWithChar ',' strategies_used ++ s2c ")")
    (s2c "multiple(" ++ joinWithChar ',' selectors_used ++ s2c ")")
    total_elements
  let withMeta :=
    ((((((base.add_metadata (s2c "total_results") (MetaVal.nat all.length)).add_metadata
      (s2c "successful_results") (MetaVal.nat (all.filter (fun r => r.success)).length)).add_metadata
      (s2c "failed_results") (MetaVal.nat (all.filter (fun r => !r.success)).length)).add_metadata
      (s2c "strategies_used") (MetaVal.strs strategies_used)).add_metadata
      (s2c "selectors_used") (MetaVal.strs selectors_used)).add_metadata
      (s2c "deduplication_enabled") (MetaVal.bool true))
  all.foldl
    (fun r ir =>
      ir.warnings.foldl
        (fun r2 w => r2.add_warning (ir.strategy_used ++ s2c ": " ++ w)) r)
    withMeta

/-- Embedding of extract_songs_optimized (lines 161 to 206): store the
known-URL table and the skip flag in the config side channel, then run
the deduplicated policy; the reuse counters after the run only feed a
log line. -/
def extract_songs_optimized (exec : Exec) (selectors : List ElementSelector)
    (config : ExtractionConfig)
    (existing_songs_with_urls : Option (List (List Char × List Char))) :
    ExtractionResult :=
  let table := existing_songs_with_urls.getD []
  let config2 := { config with
    existing_youtube_urls := some table
    skip_existing_urls := true }
  extract_songs_deduplicated exec selectors config2

/-- Embedding of _is_better_result (lines 321 to 358). -/
def is_better_result (new : ExtractionResult)
    (current : Option ExtractionResult) : Bool :=
  match current with
  | none => new.success
  | some cb =>
    if !cb.success && new.success then true
    else if !new.success then false
    else if decide (new.song_count > cb.song_count) then true
    else if new.song_count = cb.song_count then
      decide (strategyPriorityOf new.strategy_used > strategyPriorityOf cb.strategy_used)
    else false

/-- The strategy loop of the best-effort policy (lines 240 to 259),
returning the running best and the executed pairs in order; a raised
exception leaves the best unchanged, and the loop breaks as soon as the
current result is a success meeting the minimum. -/
def bestInner (exec : Exec) (config : ExtractionConfig) (min_songs : Nat)
    (sel : ElementSelector) :
    List StratId → Option ExtractionResult →
      Option ExtractionResult × List (ElementSelector × StratId)
  | [], best => (best, [])
  | st :: rest, best =>
    match exec st sel config with
    | Except.error _ =>
      let r := bestInner exec config min_songs sel rest best
      (r.1, (sel, st) :: r.2)
    | Except.ok res =>
      let best2 := if is_better_result res best then some res else best
      if res.success && decide (res.song_count ≥ min_songs) then (best2, [(sel, st)])
      else
        let r := bestInner exec config min_songs sel rest best2
        (r.1, (sel, st) :: r.2)

/-- The selector loop of the best-effort policy (lines 233 to 263): runs
the strategy loop per selector and stops when the running best is a
success meeting the minimum. -/
def bestOuter (exec : Exec) (config : ExtractionConfig) (min_songs : Nat) :
    List ElementSelector → Option ExtractionResult →
      Option ExtractionResult × List (ElementSelector × StratId)
  | [], best => (best, [])
  | sel :: rest, best =>
    let compat := coordinatorStrategies.filter
      (fun st => can_handle st sel && validate_config st config)
    let r1 := bestInner exec config min_songs sel compat best
    match r1.1 with
    | some br =>
      if br.success && decide (br.song_count ≥ min_songs) then (r1.1, r1.2)
      else
        let r := bestOuter exec config min_songs rest r1.1
        (r.1, r1.2 ++ r.2)
    | none =>
      let r := bestOuter exec config min_songs rest none
      (r.1, r1.2 ++ r.2)

/-- Embedding of extract_songs_best_effort (lines 208 to 273), also
returning the executed pairs in order: selectors in stable descending
priority order, the canonical coordinator failure when nothing was ever
better than nothing. -/
def extract_songs_best_effort (exec : Exec)
    (selectors : List ElementSelector) (config : ExtractionConfig) :
    ExtractionResult × List (ElementSelector × StratId) :=
  let min_songs := config.min_songs_for_success.getD 1
  let r := bestOuter exec config min_songs
    (sortDescBy (fun s : ElementSelector => s.priority) selectors) none
  match r.1 with
  | none =>
    (ExtractionResult.create_failure (s2c "No extraction strategies produced results")
      (s2c "coordinator") (s2c "multiple") 0, r.2)
  | some b => (b, r.2)

/-- The pairs the best-effort scan would visit with no early stop, in
scan order. -/
def scanPairs (selectors : List ElementSelector) (config : ExtractionConfig) :
    List (ElementSelector × StratId) :=
  (sortDescBy (fun s : ElementSelector => s.priority) selectors).foldl
    (fun acc sel =>
      acc ++ (coordinatorStrategies.filter
        (fun st => can_handle st sel && validate_config st config)).map
        (fun st => (sel, st)))
    []

/-- The stop condition of the best-effort scan at one pair. -/
def stopCond (exec : Exec) (config : ExtractionConfig) (min_songs : Nat)
    (p : ElementSelector × StratId) : Bool :=
  match exec p.2 p.1 config with
  | Except.ok r => r.success && decide (r.song_count ≥ min_songs)
  | Except.error _ => false

/-- The prefix of a list through the first element satisfying a
predicate, inclusive. -/
def takeThroughFirst {α : Type} (q : α → Bool) : List α → List α
  | [] => []
  | x :: t => if q x then [x] else x :: takeThroughFirst q t

/-- The compatible strategies of one selector, as filtered by both
coordinator loops. -/
def compatPairs (config : ExtractionConfig) (sel : ElementSelector) :
    List (ElementSelector × StratId) :=
  (coordinatorStrategies.filter
    (fun st => can_handle st sel && validate_config st config)).map
    (fun st => (sel, st))

/-- One execution answered with a success result. -/
def okExecSucc (exec : Exec) (config : ExtractionConfig)
    (p : ElementSelector × StratId) : Prop :=
  ∃ r, exec p.2 p.1 config = Except.ok r ∧ r.success = true

/-- The running best holds a success result meeting the minimum. -/
def StopBest (min_songs : Nat) (o : Option ExtractionResult) : Prop :=
  ∃ b, o = some b ∧ b.success = true ∧ min_songs ≤ b.song_count

/-! Lemmas about the split, join and collapse models, leading to the
idempotence of normalization. -/

theorem splitOnP_chars (p : Char → Bool) :
    ∀ l : List Char, ∀ w ∈ l.splitOnP p, ∀ c ∈ w, c ∈ l ∧ p c = false := by
  intro l
  induction l with
  | nil =>
    intro w hw c hc
    rw [List.splitOnP_nil] at hw
    simp only [List.mem_singleton] at hw
    subst hw
    simp at hc
  | cons x xs ih =>
    intro w hw c hc
    rw [List.splitOnP_cons] at hw
    by_cases hx : p x
    · rw [if_pos hx] at hw
      rcases List.mem_cons.mp hw with h | h
      · subst h; simp at hc
      · obtain ⟨hmem, hp⟩ := ih w h c hc
        exact ⟨List.mem_cons_of_mem _ hmem, hp⟩
    · rw [if_neg hx] at hw
      rcases hsp : xs.splitOnP p with _ | ⟨hd, tl⟩
      · exact absurd hsp (List.splitOnP_ne_nil p xs)
      · rw [hsp, List.modifyHead_cons] at hw
        rcases List.mem_cons.mp hw with h | h
        · subst h
          rcases List.mem_cons.mp hc with h1 | h1
          · subst h1
            exact ⟨List.mem_cons_self _ _, Bool.eq_false_iff.mpr hx⟩
          · have hhd : hd ∈ xs.splitOnP p := by
              rw [hsp]; exact List.mem_cons_self _ _
            obtain ⟨hmem, hp⟩ := ih hd hhd c h1
            exact ⟨List.mem_cons_of_mem _ hmem, hp⟩
        · have hw2 : w ∈ xs.splitOnP p := by
            rw [hsp]; exact List.mem_cons_of_mem _ h
          obtain ⟨hmem, hp⟩ := ih w hw2 c hc
          exact ⟨List.mem_cons_of_mem _ hmem, hp⟩

theorem pySplit_words (l : List Char) :
    ∀ w ∈ pySplit l, w ≠ [] ∧ ∀ c ∈ w, c ∈ l ∧ isPySpace c = false := by
  intro w hw
  unfold pySplit at hw
  have hmem := List.mem_of_mem_filter hw
  have hne := List.of_mem_filter hw
  refine ⟨?_, fun c hc => splitOnP_chars isPySpace l w hmem c hc⟩
  simp only [Bool.not_eq_true'] at hne
  intro hnil
  subst hnil
  simp at hne

theorem pySplit_joinSp :
    ∀ ws : List (List Char),
      (∀ w ∈ ws, w ≠ [] ∧ ∀ c ∈ w, isPySpace c = false) →
      pySplit (joinSp ws) = ws := by
  intro ws
  induction ws with
  | nil =>
    intro _
    simp [joinSp, pySplit, List.splitOnP_nil]
  | cons w ws ih =>
    intro h
    have hw := h w (List.mem_cons_self _ _)
    rcases ws with _ | ⟨x, ws2⟩
    · show pySplit w = [w]
      unfold pySplit
      rw [List.splitOnP_eq_single]
      · simp only [List.filter]
        have : (!w.isEmpty) = true := by
          cases w with
          | nil => exact absurd rfl hw.1
          | cons a t => simp
        rw [this]
      · intro c hc
        simp [hw.2 c hc]
    · have hj : joinSp (w :: x :: ws2) = w ++ ' ' :: joinSp (x :: ws2) := rfl
      have hrest : ∀ v ∈ x :: ws2, v ≠ [] ∧ ∀ c ∈ v, isPySpace c = false :=
        fun v hv => h v (List.mem_cons_of_mem _ hv)
      rw [hj]
      unfold pySplit
      rw [List.splitOnP_first isPySpace w (by intro c hc; simp [hw.2 c hc]) ' ' (by simp [isPySpace])]
      simp only [List.filter]
      have hne : (!w.isEmpty) = true := by
        cases w with
        | nil => exact absurd rfl hw.1
        | cons a t => simp
      rw [hne]
      have := ih hrest
      unfold pySplit at this
      rw [this]

theorem collapseWs_idem (l : List Char) :
    collapseWs (collapseWs l) = collapseWs l := by
  unfold collapseWs
  rw [pySplit_joinSp (pySplit l)
    (fun w hw => ⟨(pySplit_words l w hw).1,
      fun c hc => ((pySplit_words l w hw).2 c hc).2⟩)]

theorem mem_joinSp :
    ∀ (ws : List (List Char)) (c : Char), c ∈ joinSp ws →
      (∃ w ∈ ws, c ∈ w) ∨ c = ' ' := by
  intro ws
  induction ws with
  | nil => intro c hc; simp [joinSp] at hc
  | cons w ws ih =>
    intro c hc
    rcases ws with _ | ⟨x, ws2⟩
    · exact Or.inl ⟨w, List.mem_cons_self _ _, hc⟩
    · have hj : joinSp (w :: x :: ws2) = w ++ ' ' :: joinSp (x :: ws2) := rfl
      rw [hj] at hc
      rcases List.mem_append.mp hc with h | h
      · exact Or.inl ⟨w, List.mem_cons_self _ _, h⟩
      · rcases List.mem_cons.mp h with h1 | h1
        · exact Or.inr h1
        · rcases ih c h1 with ⟨v, hv, hcv⟩ | h2
          · exact Or.inl ⟨v, List.mem_cons_of_mem _ hv, hcv⟩
          · exact Or.inr h2

theorem joinSp_head :
    ∀ ws : List (List Char),
      (∀ w ∈ ws, w ≠ [] ∧ ∀ c ∈ w, isPySpace c = false) → ws ≠ [] →
      ∃ c t, joinSp ws = c :: t ∧ isPySpace c = false := by
  intro ws h hne
  rcases ws with _ | ⟨w, ws⟩
  · exact absurd rfl hne
  · have hw := h w (List.mem_cons_self _ _)
    rcases hwe : w with _ | ⟨a, t⟩
    · exact absurd hwe hw.1
    · have ha : isPySpace a = false := by
        apply hw.2
        rw [hwe]; exact List.mem_cons_self _ _
      rcases ws with _ | ⟨x, ws2⟩
      · exact ⟨a, t, by rw [← hwe]; rfl, ha⟩
      · refine ⟨a, t ++ ' ' :: joinSp (x :: ws2), ?_, ha⟩
        show joinSp ((a :: t) :: x :: ws2) = a :: (t ++ ' ' :: joinSp (x :: ws2))
        rfl

theorem joinSp_rev_head :
    ∀ ws : List (List Char),
      (∀ w ∈ ws, w ≠ [] ∧ ∀ c ∈ w, isPySpace c = false) → ws ≠ [] →
      ∃ c t, (joinSp ws).reverse = c :: t ∧ isPySpace c = false := by
  intro ws
  induction ws with
  | nil => intro _ hne; exact absurd rfl hne
  | cons w ws ih =>
    intro h _
    have hw := h w (List.mem_cons_self _ _)
    rcases ws with _ | ⟨x, ws2⟩
    · have : joinSp [w] = w := rfl
      rw [this]
      rcases hre : w.reverse with _ | ⟨c, t⟩
      · exfalso
        apply hw.1
        have := congrArg List.reverse hre
        simpa using this
      · refine ⟨c, t, rfl, ?_⟩
        apply hw.2
        have : c ∈ w.reverse := by rw [hre]; exact List.mem_cons_self _ _
        exact List.mem_reverse.mp this
    · obtain ⟨c, t, hct, hc⟩ := ih
        (fun v hv => h v (List.mem_cons_of_mem _ hv))
        (by simp)
      have hj : joinSp (w :: x :: ws2) = w ++ ' ' :: joinSp (x :: ws2) := rfl
      refine ⟨c, t ++ ' ' :: w.reverse, ?_, hc⟩
      rw [hj, List.reverse_append, List.reverse_cons, List.append_assoc, hct]
      rfl

theorem pyStrip_collapseWs (l : List Char) :
    pyStrip (collapseWs l) = collapseWs l := by
  rcases hsp : pySplit l with _ | ⟨w, ws⟩
  · unfold collapseWs
    rw [hsp]
    rfl
  · have props : ∀ v ∈ pySplit l, v ≠ [] ∧ ∀ c ∈ v, isPySpace c = false := by
      intro v hv
      have := pySplit_words l v hv
      exact ⟨this.1, fun c hc => (this.2 c hc).2⟩
    rw [hsp] at props
    obtain ⟨c, t, hct, hc⟩ := joinSp_head (w :: ws) props (by simp)
    obtain ⟨c2, t2, hct2, hc2⟩ := joinSp_rev_head (w :: ws) props (by simp)
    unfold collapseWs pyStrip
    rw [hsp, hct, List.dropWhile_cons, if_neg (by simp [hc]), ← hct, hct2,
        List.dropWhile_cons, if_neg (by simp [hc2]), ← hct2, List.reverse_reverse]

theorem map_fix {f : Char → Char} :
    ∀ l : List Char, (∀ c ∈ l, f c = c) → l.map f = l := by
  intro l h
  induction l with
  | nil => rfl
  | cons a t ih =>
    simp only [List.map_cons]
    rw [h a (List.mem_cons_self _ _), ih (fun c hc => h c (List.mem_cons_of_mem _ hc))]

theorem mem_normalize_title (t : List Char) :
    ∀ c ∈ normalize_title t, keepChar c = true ∨ c = ' ' := by
  intro c hc
  unfold normalize_title at hc
  by_cases h : t.isEmpty
  · rw [if_pos h] at hc; simp at hc
  · rw [if_neg h] at hc
    unfold collapseWs at hc
    rcases mem_joinSp _ c hc with ⟨w, hw, hcw⟩ | hsp
    · have hmem := ((pySplit_words _ w hw).2 c hcw).1
      unfold subSpecial at hmem
      rcases List.mem_map.mp hmem with ⟨d, _, hd⟩
      by_cases hk : keepChar d
      · rw [if_pos hk] at hd; subst hd; exact Or.inl hk
      · rw [if_neg hk] at hd; subst hd; exact Or.inr rfl
    · exact Or.inr hsp

theorem pyLowerChar_fix (c : Char) (h : keepChar c = true ∨ c = ' ') :
    pyLowerChar c = c := by
  rcases h with h | h
  · unfold keepChar at h
    unfold pyLowerChar
    rw [if_neg]
    simp only [Bool.or_eq_true, Bool.and_eq_true, decide_eq_true_eq] at h
    omega
  · subst h; decide

theorem pyLower_normalize (t : List Char) :
    pyLower (normalize_title t) = normalize_title t :=
  map_fix _ (fun c hc => pyLowerChar_fix c (mem_normalize_title t c hc))

theorem subSpecial_normalize (t : List Char) :
    subSpecial (normalize_title t) = normalize_title t := by
  apply map_fix
  intro c hc
  rcases mem_normalize_title t c hc with h | h
  · simp [h]
  · subst h; decide

theorem pyStrip_normalize (t : List Char) :
    pyStrip (normalize_title t) = normalize_title t := by
  unfold normalize_title
  by_cases h : t.isEmpty
  · rw [if_pos h]; decide
  · rw [if_neg h]
    exact pyStrip_collapseWs _

theorem collapseWs_normalize (t : List Char) :
    collapseWs (normalize_title t) = normalize_title t := by
  unfold normalize_title
  by_cases h : t.isEmpty
  · rw [if_pos h]; decide
  · rw [if_neg h]
    exact collapseWs_idem _

theorem suffix_not_in_normalize (t s : List Char) (c0 : Char)
    (hc0 : c0 ∈ s) (hbad : keepChar c0 = false) (hbad2 : c0 ≠ ' ') :
    s.isSuffixOf (normalize_title t) = false := by
  by_contra h
  rw [Bool.not_eq_false] at h
  have hsuf := List.isSuffixOf_iff_suffix.mp h
  have hmem : c0 ∈ normalize_title t := hsuf.subset hc0
  rcases mem_normalize_title t c0 hmem with h1 | h1
  · rw [hbad] at h1; exact absurd h1 (by simp)
  · exact hbad2 h1

theorem stripOneSuffix_normalize (t : List Char) :
    stripOneSuffix normSuffixes (normalize_title t) = normalize_title t := by
  have h1 := suffix_not_in_normalize t (s2c " (official video)") '(' (by decide) (by decide) (by decide)
  have h2 := suffix_not_in_normalize t (s2c " (official audio)") '(' (by decide) (by decide) (by decide)
  have h3 := suffix_not_in_normalize t (s2c " (official)") '(' (by decide) (by decide) (by decide)
  have h4 := suffix_not_in_normalize t (s2c " (lyrics)") '(' (by decide) (by decide) (by decide)
  have h5 := suffix_not_in_normalize t (s2c " m/v") '/' (by decide) (by decide) (by decide)
  have h6 := suffix_not_in_normalize t (s2c " | lyrics") '|' (by decide) (by decide) (by decide)
  show stripOneSuffix
    [s2c " (official video)", s2c " (official audio)", s2c " (official)",
     s2c " (lyrics)", s2c " m/v", s2c " | lyrics"] (normalize_title t) = normalize_title t
  unfold stripOneSuffix
  rw [h1]
  simp only [Bool.false_eq_true, if_false]
  unfold stripOneSuffix
  rw [h2]
  simp only [Bool.false_eq_true, if_false]
  unfold stripOneSuffix
  rw [h3]
  simp only [Bool.false_eq_true, if_false]
  unfold stripOneSuffix
  rw [h4]
  simp only [Bool.false_eq_true, if_false]
  unfold stripOneSuffix
  rw [h5]
  simp only [Bool.false_eq_true, if_false]
  unfold stripOneSuffix
  rw [h6]
  simp only [Bool.false_eq_true, if_false]
  rfl

/-- C9: title normalization is idempotent: a second pass of
normalize_title changes nothing, because the first pass leaves only
kept characters and single internal spaces, which lowercase, strip, the
suffix loop, the character substitution and the whitespace collapse all
fix. -/
theorem C9_normalize_title_idempotent (t : List Char) :
    normalize_title (normalize_title t) = normalize_title t := by
  by_cases h : (normalize_title t).isEmpty
  · have he : normalize_title t = [] := by
      cases hn : normalize_title t with
      | nil => rfl
      | cons a r => rw [hn] at h; simp at h
    rw [he]
    decide
  · have key : normalize_title (normalize_title t) =
      collapseWs (subSpecial (stripOneSuffix normSuffixes
        (pyStrip (pyLower (normalize_title t))))) := by
      rw [normalize_title, if_neg h]
    rw [key, pyLower_normalize, pyStrip_normalize, stripOneSuffix_normalize,
        subSpecial_normalize, collapseWs_normalize]

/-- C2: at the failing input pair zz and aaaaaaaaaaaa zz, the
containment branch of titles_match fires although the shorter
normalized string has length two: services.py line 39 takes the length
of the Python min of the two strings, which compares lexicographically
and here picks the longer string of length fifteen, so the guard meant
to measure the shorter string passes; the word-overlap test alone would
reject the pair, yet titles_match returns true. -/
theorem C2_titles_match_failing_input :
    titles_match (s2c "zz") (s2c "aaaaaaaaaaaa zz") = true ∧
    normalize_title (s2c "zz") = s2c "zz" ∧
    normalize_title (s2c "aaaaaaaaaaaa zz") = s2c "aaaaaaaaaaaa zz" ∧
    (s2c "zz").length ≤ 10 ∧
    isSubstr (s2c "zz") (s2c "aaaaaaaaaaaa zz") = true ∧
    pyMinStr (s2c "zz") (s2c "aaaaaaaaaaaa zz") = s2c "aaaaaaaaaaaa zz" ∧
    jaccardGt (s2c "zz") (s2c "aaaaaaaaaaaa zz") = false := by
  refine ⟨by decide, by decide, by decide, by decide, by decide, by decide, by decide⟩

/-! Lemmas for the URL resolution cascade ordering. -/

theorem search_youtube_url_ne_nil (t : List Char) : search_youtube_url t ≠ [] := by
  unfold search_youtube_url
  exact List.append_ne_nil_of_left_ne_nil (by decide) _

theorem getLast?_cons_of_ne_nil {α : Type} (a : α) (l : List α) (h : l ≠ []) :
    (a :: l).getLast? = l.getLast? := by
  cases l with
  | nil => exact absurd rfl h
  | cons b t => exact List.getLast?_cons_cons

/-- The master order of cascade techniques: attribute reads, click
simulation, scripted inspection, the in-path search fallback, the
history scan, the final search fallback. -/
def cascadeMaster : List CascadeStep :=
  [CascadeStep.directAttr, CascadeStep.clickSim, CascadeStep.jsInspect,
   CascadeStep.searchFallback, CascadeStep.historyScan, CascadeStep.searchFallback]

theorem from_button_spec (row : RowStub) (title : List Char)
    (config : ExtractionConfig) :
    ((extract_youtube_url_from_button row title config).2).Sublist
      [CascadeStep.clickSim, CascadeStep.jsInspect, CascadeStep.searchFallback] ∧
    (∀ e ∈ (extract_youtube_url_from_button row title config).2.dropLast,
      stepYield row title e = []) ∧
    ((extract_youtube_url_from_button row title config).1 ≠ [] →
      ∃ e, (extract_youtube_url_from_button row title config).2.getLast? = some e ∧
        (extract_youtube_url_from_button row title config).1 = stepYield row title e) ∧
    ((extract_youtube_url_from_button row title config).1 = [] →
      ∀ e ∈ (extract_youtube_url_from_button row title config).2,
        stepYield row title e = []) := by
  unfold extract_youtube_url_from_button
  by_cases hbc : config.try_button_click <;>
    by_cases hjs : config.try_javascript_extraction <;>
    by_cases hfs : config.fallback_to_search <;>
    by_cases hcr : row.clickResult = [] <;>
    by_cases hjr : row.jsResult = [] <;>
    simp_all [stepYield, search_youtube_url_ne_nil]

theorem cascadeTail_spec (row : RowStub) (title : List Char)
    (config : ExtractionConfig) (acc : List CascadeStep)
    (hacc : ∀ e ∈ acc, stepYield row title e = []) :
    (∃ suf, (cascadeTail row title config acc).2 = acc ++ suf ∧
      suf.Sublist [CascadeStep.historyScan, CascadeStep.searchFallback]) ∧
    (∀ e ∈ (cascadeTail row title config acc).2.dropLast,
      stepYield row title e = []) ∧
    ((cascadeTail row title config acc).1 ≠ [] →
      ∃ e, (cascadeTail row title config acc).2.getLast? = some e ∧
        (cascadeTail row title config acc).1 = stepYield row title e) ∧
    ((cascadeTail row title config acc).1 = [] →
      ∀ e ∈ (cascadeTail row title config acc).2,
        stepYield row title e = []) := by
  have hys : stepYield row title CascadeStep.historyScan = row.historyResult := rfl
  have hysf : stepYield row title CascadeStep.searchFallback = search_youtube_url title := rfl
  unfold cascadeTail
  by_cases hth : config.try_history_thumbnails
  · by_cases hhr : row.historyResult = []
    · by_cases hfs : config.fallback_to_search
      · rw [if_pos hth, if_neg (by simp [hhr]), if_pos hfs]
        have hsplit : acc ++ [CascadeStep.historyScan, CascadeStep.searchFallback] =
            (acc ++ [CascadeStep.historyScan]) ++ [CascadeStep.searchFallback] := by simp
        refine ⟨⟨[CascadeStep.historyScan, CascadeStep.searchFallback], rfl, by decide⟩, ?_, ?_, ?_⟩
        · intro e he
          rw [hsplit, List.dropLast_concat] at he
          rcases List.mem_append.mp he with h | h
          · exact hacc e h
          · rw [List.mem_singleton.mp h, hys]; exact hhr
        · intro _
          refine ⟨CascadeStep.searchFallback, ?_, hysf.symm⟩
          rw [hsplit]
          exact List.getLast?_concat _
        · intro habs
          exact absurd habs (search_youtube_url_ne_nil title)
      · rw [if_pos hth, if_neg (by simp [hhr]), if_neg hfs]
        refine ⟨⟨[CascadeStep.historyScan], rfl, by decide⟩, ?_, ?_, ?_⟩
        · intro e he
          rw [List.dropLast_concat] at he
          exact hacc e he
        · intro habs
          exact absurd rfl habs
        · intro _ e he
          rcases List.mem_append.mp he with h | h
          · exact hacc e h
          · rw [List.mem_singleton.mp h, hys]; exact hhr
    · rw [if_pos hth, if_pos (by simpa using hhr)]
      refine ⟨⟨[CascadeStep.historyScan], rfl, by decide⟩, ?_, ?_, ?_⟩
      · intro e he
        rw [List.dropLast_concat] at he
        exact hacc e he
      · intro _
        exact ⟨CascadeStep.historyScan, List.getLast?_concat _, hys.symm⟩
      · intro habs
        exact absurd habs hhr
  · by_cases hfs : config.fallback_to_search
    · rw [if_neg hth, if_pos hfs]
      refine ⟨⟨[CascadeStep.searchFallback], rfl, by decide⟩, ?_, ?_, ?_⟩
      · intro e he
        rw [List.dropLast_concat] at he
        exact hacc e he
      · intro _
        exact ⟨CascadeStep.searchFallback, List.getLast?_concat _, hysf.symm⟩
      · intro habs
        exact absurd habs (search_youtube_url_ne_nil title)
    · rw [if_neg hth, if_neg hfs]
      refine ⟨⟨[], by simp, by decide⟩, ?_, ?_, ?_⟩
      · intro e he
        exact hacc e (List.dropLast_sublist acc |>.mem he)
      · intro habs
        exact absurd rfl habs
      · intro _ e he
        exact hacc e he

/-- C1 corrected: the URL resolution cascade tries, in order, the direct
URL-bearing attributes, then, inside the link-control path, the click
simulation strictly before the scripted inspection, then the terminal
search fallback; the history-region thumbnail scan and a final search
fallback run only when the control path yielded nothing.  Formally: the
recorded trace is always a sublist of that master order, every
technique standing before the last one of the trace yielded nothing, a
non-empty returned URL is the yield of the last technique run, and an
empty return means every technique run yielded nothing. -/
theorem C1_cascade_order (row : RowStub) (title : List Char)
    (config : ExtractionConfig) :
    ((extract_youtube_url_comprehensive row title config).2).Sublist cascadeMaster ∧
    (∀ e ∈ (extract_youtube_url_comprehensive row title config).2.dropLast,
      stepYield row title e = []) ∧
    ((extract_youtube_url_comprehensive row title config).1 ≠ [] →
      ∃ e, (extract_youtube_url_comprehensive row title config).2.getLast? = some e ∧
        (extract_youtube_url_comprehensive row title config).1 = stepYield row title e) ∧
    ((extract_youtube_url_comprehensive row title config).1 = [] →
      ∀ e ∈ (extract_youtube_url_comprehensive row title config).2,
        stepYield row title e = []) := by
  have htail : [CascadeStep.historyScan, CascadeStep.searchFallback].Sublist cascadeMaster := by decide
  unfold extract_youtube_url_comprehensive
  by_cases hdl : config.try_direct_links
  · rw [if_pos hdl]
    cases hb : row.button with
    | none =>
      have hyd : stepYield row title CascadeStep.directAttr = [] := by
        simp [stepYield, hb]
      have hacc : ∀ e ∈ [CascadeStep.directAttr], stepYield row title e = [] := by
        intro e he
        rw [List.mem_singleton.mp he]
        exact hyd
      obtain ⟨⟨suf, hsuf, hsub⟩, hdrop, hlast, hnil⟩ :=
        cascadeTail_spec row title config [CascadeStep.directAttr] hacc
      refine ⟨?_, hdrop, hlast, hnil⟩
      rw [hsuf]
      show (CascadeStep.directAttr :: suf).Sublist
        (CascadeStep.directAttr :: cascadeMaster.tail)
      exact List.Sublist.cons₂ _ (hsub.trans (by decide))
    | some b =>
      dsimp only
      by_cases hd1 : (match b.data_url with
          | some d => !d.isEmpty && isYtUrl d
          | none => false) = true
      · rw [if_pos hd1]
        have hyd : stepYield row title CascadeStep.directAttr = b.data_url.getD [] := by
          simp [stepYield, hb, hd1]
        refine ⟨show ([CascadeStep.directAttr]).Sublist cascadeMaster by decide,
          ?_, ?_, ?_⟩
        · intro e he
          simp at he
        · intro _
          exact ⟨CascadeStep.directAttr, rfl, hyd.symm⟩
        · intro hz e he
          rw [List.mem_singleton.mp he, hyd]
          exact hz
      · rw [if_neg hd1]
        by_cases hh1 : (match b.href with
            | some h => !h.isEmpty && isYtUrl h
            | none => false) = true
        · rw [if_pos hh1]
          have hyd : stepYield row title CascadeStep.directAttr = b.href.getD [] := by
            simp only [stepYield, hb]
            rw [if_neg hd1, if_pos hh1]
          refine ⟨show ([CascadeStep.directAttr]).Sublist cascadeMaster by decide,
            ?_, ?_, ?_⟩
          · intro e he
            simp at he
          · intro _
            exact ⟨CascadeStep.directAttr, rfl, hyd.symm⟩
          · intro hz e he
            rw [List.mem_singleton.mp he, hyd]
            exact hz
        · rw [if_neg hh1]
          have hyd : stepYield row title CascadeStep.directAttr = [] := by
            simp only [stepYield, hb]
            rw [if_neg hd1, if_neg hh1]
          by_cases hbj : (config.try_button_click || config.try_javascript_extraction) = true
          · rw [if_pos hbj]
            obtain ⟨hsub', hdrop', hlast', hnil'⟩ := from_button_spec row title config
            by_cases hru : (extract_youtube_url_from_button row title config).1 ≠ []
            · simp only [if_pos hru]
              obtain ⟨e, hge, hye⟩ := hlast' hru
              have hne : (extract_youtube_url_from_button row title config).2 ≠ [] := by
                intro h0
                rw [h0] at hge
                simp at hge
              refine ⟨?_, ?_, ?_, ?_⟩
              · show (CascadeStep.directAttr ::
                  (extract_youtube_url_from_button row title config).2).Sublist
                  (CascadeStep.directAttr :: cascadeMaster.tail)
                exact List.Sublist.cons₂ _ (hsub'.trans (by decide))
              · intro x hx
                rw [List.dropLast_cons_of_ne_nil hne] at hx
                rcases List.mem_cons.mp hx with h | h
                · rw [h]; exact hyd
                · exact hdrop' x h
              · intro _
                refine ⟨e, ?_, hye⟩
                rw [getLast?_cons_of_ne_nil _ _ hne]
                exact hge
              · intro hz
                exact absurd hz hru
            · simp only [if_neg hru]
              rw [not_not] at hru
              have hacc : ∀ x ∈ CascadeStep.directAttr ::
                  (extract_youtube_url_from_button row title config).2,
                  stepYield row title x = [] := by
                intro x hx
                rcases List.mem_cons.mp hx with h | h
                · rw [h]; exact hyd
                · exact hnil' hru x h
              obtain ⟨⟨suf, hsuf, hsubt⟩, hdropc, hlastc, hnilc⟩ :=
                cascadeTail_spec row title config _ hacc
              refine ⟨?_, hdropc, hlastc, hnilc⟩
              rw [hsuf]
              show (CascadeStep.directAttr ::
                ((extract_youtube_url_from_button row title config).2 ++ suf)).Sublist
                (CascadeStep.directAttr :: cascadeMaster.tail)
              refine List.Sublist.cons₂ _ ?_
              have : cascadeMaster.tail =
                  [CascadeStep.clickSim, CascadeStep.jsInspect, CascadeStep.searchFallback] ++
                  [CascadeStep.historyScan, CascadeStep.searchFallback] := by decide
              rw [this]
              exact List.Sublist.append hsub' hsubt
          · rw [if_neg hbj]
            have hacc : ∀ e ∈ [CascadeStep.directAttr], stepYield row title e = [] := by
              intro e he
              rw [List.mem_singleton.mp he]
              exact hyd
            obtain ⟨⟨suf, hsuf, hsub⟩, hdrop, hlast, hnil⟩ :=
              cascadeTail_spec row title config [CascadeStep.directAttr] hacc
            refine ⟨?_, hdrop, hlast, hnil⟩
            rw [hsuf]
            show (CascadeStep.directAttr :: suf).Sublist
              (CascadeStep.directAttr :: cascadeMaster.tail)
            exact List.Sublist.cons₂ _ (hsub.trans (by decide))
  · rw [if_neg hdl]
    obtain ⟨⟨suf, hsuf, hsub⟩, hdrop, hlast, hnil⟩ :=
      cascadeTail_spec row title config [] (by simp)
    refine ⟨?_, hdrop, hlast, hnil⟩
    rw [hsuf]
    simpa using hsub.trans htail

/-- C1 counterexample: on a row whose link control bears no usable
attribute, with the click simulation and the scripted inspection both
enabled, the recorded trace runs the click simulation strictly before
the scripted inspection — the source order in
_extract_youtube_url_from_button is Method 1 click, Method 2 script —
refuting the claimed order in which the scripted inspection comes
before any click simulation. -/
theorem C1_counterexample :
    ExtractionConfig.try_button_click {} = true ∧
    ExtractionConfig.try_javascript_extraction {} = true ∧
    (extract_youtube_url_comprehensive
      { button := some {}, jsResult := s2c "https://youtube.com/watch?v=j" }
      (s2c "Great Tune") {}).2 =
      [CascadeStep.directAttr, CascadeStep.clickSim, CascadeStep.jsInspect] ∧
    List.indexOf CascadeStep.clickSim
      (extract_youtube_url_comprehensive
        { button := some {}, jsResult := s2c "https://youtube.com/watch?v=j" }
        (s2c "Great Tune") {}).2 <
    List.indexOf CascadeStep.jsInspect
      (extract_youtube_url_comprehensive
        { button := some {}, jsResult := s2c "https://youtube.com/watch?v=j" }
        (s2c "Great Tune") {}).2 := by
  refine ⟨rfl, rfl, by decide, by decide⟩

/-- C1 witness: the ordering theorem applied at a concrete row. -/
theorem C1_cascade_order_witness :
    ((extract_youtube_url_comprehensive
      { button := some {}, jsResult := s2c "https://youtube.com/watch?v=j" }
      (s2c "Great Tune") {}).2).Sublist cascadeMaster :=
  (C1_cascade_order
    { button := some {}, jsResult := s2c "https://youtube.com/watch?v=j" }
    (s2c "Great Tune") {}).1

/-- C3 counterexample: with close_new_tabs disabled and a click that
opens a context and reads a location without raising, the function
returns with the opened context still open and still current — the
close-and-restore step is skipped, so it is not unconditional and not
independent of configuration. -/
theorem C3_counterexample :
    ({ close_new_tabs := false } : ExtractionConfig).close_new_tabs = false ∧
    (extract_via_button_click ⟨[0], 0⟩
      { opened := some (1, s2c "https://youtube.com/w") }
      { close_new_tabs := false }).2 =
      ⟨[0, 1], 1⟩ := by
  exact ⟨rfl, rfl⟩

/-- C3 corrected: the close-and-restore of the click simulation is
conditional on close_new_tabs.  When it is set and neither the click nor
the location read raises, the opened context is closed and the driver
returns to the first previously open handle; when it is cleared the
driver stays in the opened context, which remains open; when the
location read raises after the switch, the handler returns the driver to
the first handle but the opened context stays open. -/
theorem C3_click_restore (st : DriverWindows) (env : ClickEnv)
    (config : ExtractionConfig) (w0 hnd : Nat) (rest : List Nat)
    (u : List Char) :
    (config.close_new_tabs = true → env.clickRaises = false →
      env.urlReadRaises = false → env.opened = some (hnd, u) →
      st.windows = w0 :: rest → st.current = w0 → hnd ∉ st.windows →
      (extract_via_button_click st env config).2 = st) ∧
    (config.close_new_tabs = false → env.clickRaises = false →
      env.urlReadRaises = false → env.opened = some (hnd, u) →
      (extract_via_button_click st env config).2 =
        ⟨st.windows ++ [hnd], hnd⟩) ∧
    (env.clickRaises = false → env.urlReadRaises = true →
      env.opened = some (hnd, u) → st.windows = w0 :: rest →
      (extract_via_button_click st env config).2 =
        ⟨st.windows ++ [hnd], w0⟩) := by
  refine ⟨?_, ?_, ?_⟩
  · intro hct hcr hur hop hw hc hmem
    rcases st with ⟨ws, cur⟩
    replace hw : ws = w0 :: rest := hw
    replace hc : cur = w0 := hc
    subst hw
    have hmem2 : hnd ∉ w0 :: rest := hmem
    unfold extract_via_button_click
    rw [hcr, hop]
    simp only [Bool.false_eq_true, if_false]
    rw [hur]
    simp only [Bool.false_eq_true, if_false]
    rw [hct]
    simp only [if_true]
    have herase : ((w0 :: rest) ++ [hnd]).erase hnd = w0 :: rest := by
      rw [List.erase_append_right _ hmem2, List.erase_cons_head, List.append_nil]
    cases hyt : isYtUrl u
    · simp only [Bool.false_eq_true, if_false]
      rw [herase, hc]
    · simp only [if_true]
      rw [herase, hc]
  · intro hct hcr hur hop
    unfold extract_via_button_click
    rw [hcr, hop]
    simp only [Bool.false_eq_true, if_false]
    rw [hur]
    simp only [Bool.false_eq_true, if_false]
    rw [hct]
    simp only [Bool.false_eq_true, if_false]
    cases hyt : isYtUrl u <;> simp
  · intro hcr hur hop hw
    unfold extract_via_button_click
    rw [hcr, hop]
    simp only [Bool.false_eq_true, if_false]
    rw [hur]
    simp only [if_true]
    unfold exceptRestore
    rw [hw]
    rfl

/-- C3 witness: the restore theorem applied at a concrete session
state. -/
theorem C3_click_restore_witness :
    (extract_via_button_click ⟨[0], 0⟩
      { opened := some (1, s2c "https://youtube.com/w") } {}).2 = ⟨[0], 0⟩ :=
  (C3_click_restore ⟨[0], 0⟩ { opened := some (1, s2c "https://youtube.com/w") }
    {} 0 1 [] (s2c "https://youtube.com/w")).1 rfl rfl rfl rfl rfl rfl (by decide)

/-- C8: in robust mode the collection is re-queried by index, and an
index at or beyond the re-queried length yields no record and no
cascade activity; the loop step at such an index leaves the
accumulated songs and trace unchanged; and a robust run whose initial
query succeeds always returns a success result with an empty warnings
list, for the table strategy and for the general strategy alike. -/
theorem C8_out_of_range_skip (rows : List RowStub) (elems : List ElemStub)
    (selStr : List Char) (i : Nat) (config : ExtractionConfig)
    (tdom : TableDom) (edom : ElemDom) (sel : ElementSelector)
    (acc : List SongRequest × List CascadeStep) :
    (rows.length ≤ i → extract_from_table_row_robust rows selStr i config = (none, [])) ∧
    ((tdom.rowsAt (i + 1)).length ≤ i →
      tableRobustStep tdom selStr config acc i = acc) ∧
    (tdom.findFails = none →
      (extract_songs_robust_table tdom sel config).1.success = true ∧
      (extract_songs_robust_table tdom sel config).1.warnings = [] ∧
      (extract_songs_robust_table tdom sel config).1.error_message = none) ∧
    (elems.length ≤ i → extract_from_element_robust elems selStr i config = none) ∧
    (edom.findFails = none →
      (extract_songs_robust_general edom sel config).success = true ∧
      (extract_songs_robust_general edom sel config).warnings = [] ∧
      (extract_songs_robust_general edom sel config).error_message = none) := by
  refine ⟨?_, ?_, ?_, ?_, ?_⟩
  · intro h
    unfold extract_from_table_row_robust
    rw [dif_neg (by omega)]
  · intro h
    unfold tableRobustStep
    unfold extract_from_table_row_robust
    rw [dif_neg (by omega)]
    simp
  · intro h
    unfold extract_songs_robust_table
    rw [h]
    exact ⟨rfl, rfl, rfl⟩
  · intro h
    unfold extract_from_element_robust
    rw [dif_neg (by omega)]
  · intro h
    unfold extract_songs_robust_general
    rw [h]
    exact ⟨rfl, rfl, rfl⟩

/-- C8 witness: a shrinking collection at a concrete index. -/
theorem C8_out_of_range_skip_witness :
    extract_from_table_row_robust [] (s2c "tr") 0 {} = (none, []) :=
  (C8_out_of_range_skip [] [] (s2c "tr") 0 {}
    ⟨none, fun _ => []⟩ ⟨none, fun _ => []⟩ ⟨s2c "tr", 1, false⟩ ([], [])).1
    (by simp)

/-- C5: the four strategy embeddings are total functions returning a
result for every stubbed driver behavior, so no exception escapes; a
result reporting failure always carries an error message; and an
injected query fault surfaces as the corresponding failure result
rather than an exception. -/
theorem C5_extract_songs_never_raise (tdom : TableDom) (edom : ElemDom)
    (ldom : LinkDom) (xdom : TextDom) (sel : ElementSelector)
    (config : ExtractionConfig) (msg : List Char) :
    (((table_extract_songs tdom sel config).1.success = false →
      (table_extract_songs tdom sel config).1.error_message.isSome = true) ∧
     (tdom.findFails = some msg →
      (table_extract_songs tdom sel config).1 =
        ExtractionResult.create_failure msg (s2c "table_row") sel.selector 0)) ∧
    (((general_extract_songs edom sel config).success = false →
      (general_extract_songs edom sel config).error_message.isSome = true) ∧
     (edom.findFails = some msg →
      general_extract_songs edom sel config =
        ExtractionResult.create_failure msg (s2c "general_element") sel.selector 0)) ∧
    (((link_extract_songs ldom sel config).success = false →
      (link_extract_songs ldom sel config).error_message.isSome = true) ∧
     (ldom.findFails = some msg →
      link_extract_songs ldom sel config =
        ExtractionResult.create_failure msg (s2c "youtube_link") sel.selector 0)) ∧
    (((text_extract_songs xdom sel config).success = false →
      (text_extract_songs xdom sel config).error_message.isSome = true) ∧
     (xdom.findFails = some msg →
      text_extract_songs xdom sel config =
        ExtractionResult.create_failure msg (s2c "text_parsing") sel.selector 0)) := by
  refine ⟨⟨?_, ?_⟩, ⟨?_, ?_⟩, ⟨?_, ?_⟩, ⟨?_, ?_⟩⟩
  · intro hs
    unfold table_extract_songs extract_songs_robust_table
      extract_songs_simple_table at hs ⊢
    by_cases hr : config.use_robust_finding <;>
      simp only [hr, if_true, Bool.false_eq_true, if_false] at hs ⊢ <;>
      cases hf : tdom.findFails <;>
      simp_all [ExtractionResult.create_failure, ExtractionResult.create_success]
  · intro hf
    unfold table_extract_songs extract_songs_robust_table extract_songs_simple_table
    by_cases hr : config.use_robust_finding <;>
      simp only [hr, if_true, Bool.false_eq_true, if_false] <;> rw [hf]
  · intro hs
    unfold general_extract_songs extract_songs_robust_general
      extract_songs_simple_general at hs ⊢
    by_cases hr : config.use_robust_finding <;>
      simp only [hr, if_true, Bool.false_eq_true, if_false] at hs ⊢ <;>
      cases hf : edom.findFails <;>
      simp_all [ExtractionResult.create_failure, ExtractionResult.create_success]
  · intro hf
    unfold general_extract_songs extract_songs_robust_general extract_songs_simple_general
    by_cases hr : config.use_robust_finding <;>
      simp only [hr, if_true, Bool.false_eq_true, if_false] <;> rw [hf]
  · intro hs
    unfold link_extract_songs at hs ⊢
    cases hf : ldom.findFails <;>
      simp_all [ExtractionResult.create_failure, ExtractionResult.create_success]
  · intro hf
    unfold link_extract_songs
    rw [hf]
  · intro hs
    unfold text_extract_songs at hs ⊢
    cases hf : xdom.findFails <;>
      simp_all [ExtractionResult.create_failure, ExtractionResult.create_success,
        ExtractionResult.add_metadata]
  · intro hf
    unfold text_extract_songs
    rw [hf]

/-- C5 witness: a concrete query fault becomes a failure result with
its message. -/
theorem C5_extract_songs_never_raise_witness :
    (table_extract_songs ⟨some (s2c "boom"), fun _ => []⟩ ⟨s2c "tr", 1, false⟩ {}).1 =
      ExtractionResult.create_failure (s2c "boom") (s2c "table_row") (s2c "tr") 0 :=
  ((C5_extract_songs_never_raise ⟨some (s2c "boom"), fun _ => []⟩
    ⟨none, fun _ => []⟩ ⟨none, []⟩ ⟨none, [], []⟩ ⟨s2c "tr", 1, false⟩ {}
    (s2c "boom")).1).2 rfl

/-- C4: the optimized policy stores the caller-supplied known-URL table
in the config side channel and then runs the deduplicated policy with
that config, and, for every row whose extracted (cleaned, lowercased)
title is a key of the stored table, the robust row extractor never runs
the click simulation and, when URL extraction is on, any record it
produces carries the known URL from the table. -/
theorem C4_optimized_skips_click (exec : Exec)
    (sels : List ElementSelector) (cfg : ExtractionConfig)
    (existing : Option (List (List Char × List Char)))
    (rows : List RowStub) (selStr : List Char) (i : Nat)
    (table : List (List Char × List Char)) (u : List Char) :
    (extract_songs_optimized exec sels cfg existing =
      extract_songs_deduplicated exec sels
        { cfg with existing_youtube_urls := some (existing.getD []),
                   skip_existing_urls := true }) ∧
    (∀ h : i < rows.length,
      cfg.existing_youtube_urls = some table →
      alookup (pyLower (if cfg.clean_titles
          then clean_song_title (rowTitleRaw (rows.get ⟨i, h⟩))
          else rowTitleRaw (rows.get ⟨i, h⟩))) table = some u →
      CascadeStep.clickSim ∉ (extract_from_table_row_robust rows selStr i cfg).2 ∧
      (cfg.extract_youtube_urls = true →
        ∀ d, (extract_from_table_row_robust rows selStr i cfg).1 = some d →
          d.youtube_url = u)) := by
  refine ⟨rfl, ?_⟩
  intro h htab hlook
  unfold extract_from_table_row_robust
  rw [dif_pos h]
  by_cases hfault : (rows.get ⟨i, h⟩).fault
  · simp only [hfault, if_true]
    exact ⟨by simp, fun _ d hd => by simp at hd⟩
  · simp only [hfault, Bool.false_eq_true, if_false]
    by_cases ht0 : ((rowTitleRaw (rows.get ⟨i, h⟩)).isEmpty ||
        decide ((rowTitleRaw (rows.get ⟨i, h⟩)).length < cfg.min_title_length)) = true
    · simp only [ht0, if_true]
      exact ⟨by simp, fun _ d hd => by simp at hd⟩
    · simp only [ht0, Bool.false_eq_true, if_false]
      by_cases hui : (cfg.skip_ui_text && is_ui_text (rowTitleRaw (rows.get ⟨i, h⟩))) = true
      · simp only [hui, if_true]
        exact ⟨by simp, fun _ d hd => by simp at hd⟩
      · simp only [hui, Bool.false_eq_true, if_false]
        by_cases hxy : cfg.extract_youtube_urls = true
        · simp only [hxy, if_true]
          have hex : cfg.existingUrls = table := by
            unfold ExtractionConfig.existingUrls
            rw [htab]
            rfl
          rw [hex, hlook]
          refine ⟨by simp, fun _ d hd => ?_⟩
          simp only [Option.some.injEq] at hd
          rw [← hd]
        · simp only [hxy, Bool.false_eq_true, if_false]
          refine ⟨by simp, fun hxy2 => hxy2.elim⟩

/-- C4 witness: a concrete row whose title is in the table reuses the
known URL with no cascade activity. -/
theorem C4_optimized_skips_click_witness :
    CascadeStep.clickSim ∉
      (extract_from_table_row_robust
        [{ titleText := some (s2c "My Longish Song Title"), button := some {} }]
        (s2c "tr") 0
        { existing_youtube_urls :=
            some [(s2c "my longish song title", s2c "https://youtu.be/abc")] }).2 :=
  ((C4_optimized_skips_click (fun _ _ _ => Except.error []) []
    { existing_youtube_urls :=
        some [(s2c "my longish song title", s2c "https://youtu.be/abc")] } none
    [{ titleText := some (s2c "My Longish Song Title"), button := some {} }]
    (s2c "tr") 0
    [(s2c "my longish song title", s2c "https://youtu.be/abc")]
    (s2c "https://youtu.be/abc")).2 (by decide) rfl (by decide)).1

/-! Lemmas about the merge of the deduplicated policy. -/

theorem foldl_preserves {α β : Type} (P : α → Prop) (f : α → β → α)
    (hf : ∀ acc x, P acc → P (f acc x)) :
    ∀ (l : List β) (init : α), P init → P (l.foldl f init) := by
  intro l
  induction l with
  | nil => intro init h; exact h
  | cons x t ih => intro init h; exact ih (f init x) (hf init x h)

theorem mem_dedupeStep (all : List SongRequest) (song s : SongRequest)
    (h : s ∈ dedupeStep all song) : s ∈ all ∨ s = song := by
  unfold dedupeStep at h
  by_cases hm : (all.any fun ex => songs_match song ex) = true
  · rw [if_pos hm] at h
    exact Or.inl h
  · rw [if_neg hm] at h
    rcases List.mem_append.mp h with h1 | h1
    · exact Or.inl h1
    · exact Or.inr (List.mem_singleton.mp h1)

theorem mem_songs_foldl (songs : List SongRequest) :
    ∀ (all0 : List SongRequest) (s : SongRequest),
      s ∈ songs.foldl dedupeStep all0 → s ∈ all0 ∨ s ∈ songs := by
  induction songs with
  | nil => intro all0 s h; exact Or.inl h
  | cons x t ih =>
    intro all0 s h
    rcases ih (dedupeStep all0 x) s h with h1 | h1
    · rcases mem_dedupeStep all0 x s h1 with h2 | h2
      · exact Or.inl h2
      · exact Or.inr (by rw [h2]; exact List.mem_cons_self _ _)
    · exact Or.inr (List.mem_cons_of_mem _ h1)

theorem mem_results_foldl (sorted : List ExtractionResult) :
    ∀ (all0 : List SongRequest) (s : SongRequest),
      s ∈ sorted.foldl (fun all r => r.songs.foldl dedupeStep all) all0 →
      s ∈ all0 ∨ ∃ r ∈ sorted, s ∈ r.songs := by
  induction sorted with
  | nil => intro all0 s h; exact Or.inl h
  | cons r rest ih =>
    intro all0 s h
    rcases ih _ s h with h1 | ⟨r2, hr2, hs2⟩
    · rcases mem_songs_foldl r.songs all0 s h1 with h2 | h2
      · exact Or.inl h2
      · exact Or.inr ⟨r, List.mem_cons_self _ _, h2⟩
    · exact Or.inr ⟨r2, List.mem_cons_of_mem _ hr2, hs2⟩

theorem mem_insertDescBy {α : Type} (key : α → Int) (y x : α) :
    ∀ l : List α, x ∈ insertDescBy key y l → x = y ∨ x ∈ l := by
  intro l
  induction l with
  | nil =>
    intro h
    simp [insertDescBy] at h
    exact Or.inl h
  | cons z t ih =>
    intro h
    unfold insertDescBy at h
    by_cases hk : key y > key z
    · rw [if_pos hk] at h
      rcases List.mem_cons.mp h with h1 | h1
      · exact Or.inl h1
      · exact Or.inr h1
    · rw [if_neg hk] at h
      rcases List.mem_cons.mp h with h1 | h1
      · exact Or.inr (by rw [h1]; exact List.mem_cons_self _ _)
      · rcases ih h1 with h2 | h2
        · exact Or.inl h2
        · exact Or.inr (List.mem_cons_of_mem _ h2)

theorem mem_sortDescBy {α : Type} (key : α → Int) :
    ∀ (l : List α) (acc : List α) (x : α),
      x ∈ l.foldl (fun a v => insertDescBy key v a) acc → x ∈ acc ∨ x ∈ l := by
  intro l
  induction l with
  | nil => intro acc x h; exact Or.inl h
  | cons z t ih =>
    intro acc x h
    rcases ih _ x h with h1 | h1
    · rcases mem_insertDescBy key z x acc h1 with h2 | h2
      · exact Or.inr (by rw [h2]; exact List.mem_cons_self _ _)
      · exact Or.inl h2
    · exact Or.inr (List.mem_cons_of_mem _ h1)

theorem dedupeStep_pairwise (all : List SongRequest) (song : SongRequest)
    (h : List.Pairwise (fun a b => songs_match b a = false) all) :
    List.Pairwise (fun a b => songs_match b a = false) (dedupeStep all song) := by
  unfold dedupeStep
  by_cases hm : (all.any fun ex => songs_match song ex) = true
  · rw [if_pos hm]; exact h
  · rw [if_neg hm]
    rw [List.pairwise_append]
    refine ⟨h, List.pairwise_singleton _ _, ?_⟩
    intro a ha b hb
    rw [List.mem_singleton.mp hb]
    have hm2 : (all.any fun ex => songs_match song ex) = false :=
      Bool.not_eq_true _ ▸ hm
    have := List.any_eq_false.mp hm2
    exact Bool.eq_false_iff.mpr (this a ha)

/-- C6: the merge of the deduplicated policy accepts a record only if it
does not match an already accepted one, so its output is pairwise
non-matching; every merged record originates in a successful input
result; and in the two-result scenario (the same logical song under
differently suffixed titles from the table-row and the text-parsing
strategies, supplied in ascending priority order) exactly the record of
the higher-priority strategy survives, which also exercises the stable
descending sort by the fixed priority table. -/
theorem C6_dedupe_merge (results : List ExtractionResult)
    (rHigh rLow : ExtractionResult) (s1 s2 : SongRequest) :
    List.Pairwise (fun a b => songs_match b a = false)
      (combine_and_deduplicate_songs results) ∧
    (∀ s ∈ combine_and_deduplicate_songs results,
      ∃ r ∈ results, r.success = true ∧ s ∈ r.songs) ∧
    (rHigh.strategy_used = s2c "table_row" →
     rLow.strategy_used = s2c "text_parsing" →
     rHigh.success = true → rLow.success = true →
     rHigh.songs = [s1] → rLow.songs = [s2] →
     songs_match s2 s1 = true →
     combine_and_deduplicate_songs [rLow, rHigh] = [s1]) := by
  refine ⟨?_, ?_, ?_⟩
  · unfold combine_and_deduplicate_songs
    apply foldl_preserves _ _ ?_ _ _ List.Pairwise.nil
    intro acc r hacc
    exact foldl_preserves _ _ (fun a s h => dedupeStep_pairwise a s h) r.songs acc hacc
  · intro s hs
    unfold combine_and_deduplicate_songs at hs
    rcases mem_results_foldl _ _ _ hs with h | ⟨r, hr, hsr⟩
    · simp at h
    · rcases mem_sortDescBy _ _ _ _ hr with h | h
      · simp at h
      · have hmf := List.mem_filter.mp h
        exact ⟨r, hmf.1, by simpa using hmf.2, hsr⟩
  · intro hn1 hn2 hs1 hs2 hsongs1 hsongs2 hm
    unfold combine_and_deduplicate_songs
    have hfil : [rLow, rHigh].filter (fun r => r.success) = [rLow, rHigh] := by
      simp [List.filter, hs1, hs2]
    rw [hfil]
    have hkeyH : strategyPriorityOf rHigh.strategy_used = 10 := by
      rw [hn1]; decide
    have hkeyL : strategyPriorityOf rLow.strategy_used = 1 := by
      rw [hn2]; decide
    have hsort : sortDescBy
        (fun r : ExtractionResult => (strategyPriorityOf r.strategy_used : Int))
        [rLow, rHigh] = [rHigh, rLow] := by
      unfold sortDescBy
      simp only [List.foldl]
      rw [show insertDescBy
        (fun r : ExtractionResult => (strategyPriorityOf r.strategy_used : Int))
        rLow [] = [rLow] from rfl]
      unfold insertDescBy
      rw [hkeyH, hkeyL]
      norm_num
    dsimp only
    rw [hsort]
    simp only [List.foldl, hsongs1, hsongs2]
    unfold dedupeStep
    simp [songs_match, songs_match] at hm ⊢
    simp [hm]

/-- C6 witness: concrete duplicate titles across two results. -/
theorem C6_dedupe_merge_witness :
    combine_and_deduplicate_songs
      [ExtractionResult.create_success [{ title := s2c "Imagine (Official Video)" }]
        (s2c "text_parsing") (s2c "div") 1,
       ExtractionResult.create_success [{ title := s2c "Imagine" }]
        (s2c "table_row") (s2c "tr") 1] =
      [{ title := s2c "Imagine" }] :=
  (C6_dedupe_merge []
    (ExtractionResult.create_success [{ title := s2c "Imagine" }]
      (s2c "table_row") (s2c "tr") 1)
    (ExtractionResult.create_success [{ title := s2c "Imagine (Official Video)" }]
      (s2c "text_parsing") (s2c "div") 1)
    { title := s2c "Imagine" }
    { title := s2c "Imagine (Official Video)" }).2.2
    rfl rfl rfl rfl rfl rfl (by decide)

/-- C10: the deduplicated policy always returns a success result with no
error message, whatever the oracle answers; when every underlying
per-strategy result is a failure the merged song list is empty; and the
counts of successful and failed underlying results are recorded in the
metadata of the merged result. -/
theorem C10_deduplicated_always_success (exec : Exec)
    (selectors : List ElementSelector) (config : ExtractionConfig) :
    (extract_songs_deduplicated exec selectors config).success = true ∧
    (extract_songs_deduplicated exec selectors config).error_message = none ∧
    ((∀ r ∈ extract_songs_comprehensive exec selectors config, r.success = false) →
      (extract_songs_deduplicated exec selectors config).songs = []) ∧
    (s2c "successful_results",
      MetaVal.nat ((extract_songs_comprehensive exec selectors config).filter
        (fun r => r.success)).length) ∈
      (extract_songs_deduplicated exec selectors config).metadata ∧
    (s2c "failed_results",
      MetaVal.nat ((extract_songs_comprehensive exec selectors config).filter
        (fun r => !r.success)).length) ∈
      (extract_songs_deduplicated exec selectors config).metadata := by
  have hP : ∀ (all : List ExtractionResult) (init : ExtractionResult),
      (fun r : ExtractionResult =>
        r.success = init.success ∧ r.error_message = init.error_message ∧
        r.songs = init.songs ∧ r.metadata = init.metadata)
      (all.foldl
        (fun r ir => ir.warnings.foldl
          (fun r2 w => r2.add_warning (ir.strategy_used ++ s2c ": " ++ w)) r)
        init) := by
    intro all init
    apply foldl_preserves
      (fun r : ExtractionResult =>
        r.success = init.success ∧ r.error_message = init.error_message ∧
        r.songs = init.songs ∧ r.metadata = init.metadata)
    · intro acc ir hacc
      apply foldl_preserves
        (fun r : ExtractionResult =>
          r.success = init.success ∧ r.error_message = init.error_message ∧
          r.songs = init.songs ∧ r.metadata = init.metadata)
      · intro acc2 w hacc2
        exact ⟨hacc2.1, hacc2.2.1, hacc2.2.2.1, hacc2.2.2.2⟩
      · exact hacc
    · exact ⟨rfl, rfl, rfl, rfl⟩
  unfold extract_songs_deduplicated
  dsimp only
  obtain ⟨h1, h2, h3, h4⟩ := hP (extract_songs_comprehensive exec selectors config) _
  rw [h1, h2, h3, h4]
  refine ⟨rfl, rfl, ?_, ?_, ?_⟩
  · intro hall
    show combine_and_deduplicate_songs (extract_songs_comprehensive exec selectors config) = []
    unfold combine_and_deduplicate_songs
    have hfil : (extract_songs_comprehensive exec selectors config).filter
        (fun r => r.success) = [] := by
      rw [List.filter_eq_nil_iff]
      intro r hr
      simp [hall r hr]
    rw [hfil]
    rfl
  · simp [ExtractionResult.add_metadata, ExtractionResult.create_success]
  · simp [ExtractionResult.add_metadata, ExtractionResult.create_success]

/-- C10 witness: a run where the only oracle answer is a raise still
merges into a success result. -/
theorem C10_deduplicated_always_success_witness :
    (extract_songs_deduplicated (fun _ _ _ => Except.error (s2c "boom"))
      [⟨s2c "tr", 10, false⟩] {}).success = true :=
  (C10_deduplicated_always_success (fun _ _ _ => Except.error (s2c "boom"))
    [⟨s2c "tr", 10, false⟩] {}).1

/-! Lemmas for the best-effort policy. -/

theorem is_better_success (res : ExtractionResult)
    (best : Option ExtractionResult)
    (h : is_better_result res best = true) : res.success = true := by
  unfold is_better_result at h
  cases best with
  | none => exact h
  | some cb =>
    dsimp only at h
    by_cases h1 : (!cb.success && res.success) = true
    · have h2 := h1
      simp only [Bool.and_eq_true] at h2
      exact h2.2
    · rw [if_neg h1] at h
      by_cases h2 : (!res.success) = true
      · rw [if_pos h2] at h
        simp at h
      · simpa using h2

theorem stopCond_okSucc (exec : Exec) (config : ExtractionConfig)
    (min_songs : Nat) (p : ElementSelector × StratId)
    (h : stopCond exec config min_songs p = true) :
    okExecSucc exec config p := by
  unfold stopCond at h
  cases hx : exec p.2 p.1 config with
  | error e => rw [hx] at h; simp at h
  | ok r =>
    rw [hx] at h
    simp only [Bool.and_eq_true] at h
    exact ⟨r, hx, h.1⟩

theorem ttf_cons {α : Type} (q : α → Bool) (x : α) (l : List α) :
    takeThroughFirst q (x :: l) =
      if q x = true then [x] else x :: takeThroughFirst q l := rfl

theorem ttf_all_false {α : Type} (q : α → Bool) :
    ∀ l : List α, (∀ x ∈ l, q x = false) → takeThroughFirst q l = l := by
  intro l
  induction l with
  | nil => intro _; rfl
  | cons x t ih =>
    intro h
    rw [ttf_cons, h x (List.mem_cons_self _ _)]
    simp only [Bool.false_eq_true, if_false]
    rw [ih (fun y hy => h y (List.mem_cons_of_mem _ hy))]

theorem ttf_append_no {α : Type} (q : α → Bool) :
    ∀ xs ys : List α, (∀ x ∈ xs, q x = false) →
      takeThroughFirst q (xs ++ ys) = xs ++ takeThroughFirst q ys := by
  intro xs
  induction xs with
  | nil => intro ys _; rfl
  | cons x t ih =>
    intro ys h
    show takeThroughFirst q (x :: (t ++ ys)) = x :: (t ++ takeThroughFirst q ys)
    rw [ttf_cons, h x (List.mem_cons_self _ _)]
    simp only [Bool.false_eq_true, if_false]
    rw [ih ys (fun y hy => h y (List.mem_cons_of_mem _ hy))]

theorem ttf_append_stop {α : Type} (q : α → Bool) :
    ∀ xs ys : List α, (∃ x ∈ xs, q x = true) →
      takeThroughFirst q (xs ++ ys) = takeThroughFirst q xs := by
  intro xs
  induction xs with
  | nil =>
    intro ys h
    simp at h
  | cons x t ih =>
    intro ys h
    by_cases hx : q x = true
    · show takeThroughFirst q (x :: (t ++ ys)) = takeThroughFirst q (x :: t)
      rw [ttf_cons, ttf_cons, hx]
      simp
    · obtain ⟨y, hy, hqy⟩ := h
      rcases List.mem_cons.mp hy with h1 | h1
      · rw [h1] at hqy; exact absurd hqy hx
      · show takeThroughFirst q (x :: (t ++ ys)) = takeThroughFirst q (x :: t)
        have hx2 : q x = false := by simpa using hx
        rw [ttf_cons, ttf_cons, hx2]
        simp only [Bool.false_eq_true, if_false]
        rw [ih ys ⟨y, h1, hqy⟩]

theorem foldl_append_flatten {α β : Type} (f : α → List β) :
    ∀ (l : List α) (init : List β),
      l.foldl (fun acc x => acc ++ f x) init = init ++ (l.map f).flatten := by
  intro l
  induction l with
  | nil => intro init; simp
  | cons x t ih =>
    intro init
    show (t.foldl (fun acc y => acc ++ f y) (init ++ f x)) = _
    rw [ih (init ++ f x)]
    simp

theorem scanPairs_eq (selectors : List ElementSelector)
    (config : ExtractionConfig) :
    scanPairs selectors config =
      ((sortDescBy (fun s : ElementSelector => s.priority) selectors).map
        (compatPairs config)).flatten := by
  unfold scanPairs compatPairs
  rw [foldl_append_flatten]
  rfl

theorem bestInner_cons_error (exec : Exec) (config : ExtractionConfig)
    (min_songs : Nat) (sel : ElementSelector) (st : StratId)
    (rest : List StratId) (best : Option ExtractionResult) (e : List Char)
    (hx : exec st sel config = Except.error e) :
    bestInner exec config min_songs sel (st :: rest) best =
      ((bestInner exec config min_songs sel rest best).1,
       (sel, st) :: (bestInner exec config min_songs sel rest best).2) := by
  conv_lhs => unfold bestInner
  rw [hx]

theorem bestInner_cons_ok (exec : Exec) (config : ExtractionConfig)
    (min_songs : Nat) (sel : ElementSelector) (st : StratId)
    (rest : List StratId) (best : Option ExtractionResult)
    (res : ExtractionResult)
    (hx : exec st sel config = Except.ok res) :
    bestInner exec config min_songs sel (st :: rest) best =
      (if (res.success && decide (res.song_count ≥ min_songs)) = true
       then ((if is_better_result res best = true then some res else best),
             [(sel, st)])
       else ((bestInner exec config min_songs sel rest
                (if is_better_result res best = true then some res else best)).1,
             (sel, st) :: (bestInner exec config min_songs sel rest
                (if is_better_result res best = true then some res else best)).2)) := by
  conv_lhs => unfold bestInner
  rw [hx]

theorem is_better_false_count (res cb : ExtractionResult)
    (hcb : cb.success = true) (hrs : res.success = true)
    (hib : is_better_result res (some cb) = false) :
    res.song_count ≤ cb.song_count := by
  by_contra hgt
  push_neg at hgt
  unfold is_better_result at hib
  dsimp only at hib
  rw [hcb, hrs] at hib
  rw [if_neg (by simp)] at hib
  rw [if_neg (by simp)] at hib
  rw [if_pos (by simpa using hgt)] at hib
  exact absurd hib (by simp)

theorem bestInner_spec (exec : Exec) (config : ExtractionConfig)
    (min_songs : Nat) (sel : ElementSelector) :
    ∀ (sts : List StratId) (best : Option ExtractionResult),
      (∀ b, best = some b → b.success = true) →
      (∀ b, (bestInner exec config min_songs sel sts best).1 = some b →
        b.success = true) ∧
      ((bestInner exec config min_songs sel sts best).2 =
        takeThroughFirst (stopCond exec config min_songs)
          (sts.map (fun st => (sel, st)))) ∧
      ((∀ s ∈ sts, stopCond exec config min_songs (sel, s) = false) →
        ¬StopBest min_songs best →
        ¬StopBest min_songs (bestInner exec config min_songs sel sts best).1) ∧
      ((∃ s ∈ sts, okExecSucc exec config (sel, s)) →
        (bestInner exec config min_songs sel sts best).1 ≠ none) ∧
      (best ≠ none → (bestInner exec config min_songs sel sts best).1 ≠ none) ∧
      ((∀ s ∈ sts, ¬okExecSucc exec config (sel, s)) →
        (bestInner exec config min_songs sel sts best).1 = best) ∧
      ((∃ s ∈ sts, stopCond exec config min_songs (sel, s) = true) →
        StopBest min_songs (bestInner exec config min_songs sel sts best).1) := by
  intro sts
  induction sts with
  | nil =>
    intro best hI
    refine ⟨hI, rfl, fun _ hnb => hnb, ?_, fun h => h, fun _ => rfl, ?_⟩
    · rintro ⟨s, hs, _⟩
      simp at hs
    · rintro ⟨s, hs, _⟩
      simp at hs
  | cons st rest ih =>
    intro best hI
    cases hx : exec st sel config with
    | error e =>
      rw [bestInner_cons_error exec config min_songs sel st rest best e hx]
      obtain ⟨ih1, ih2, ih3, ih4, ih5, ih6, ih7⟩ := ih best hI
      have hq : stopCond exec config min_songs (sel, st) = false := by
        unfold stopCond
        rw [hx]
      have hns : ¬okExecSucc exec config (sel, st) := by
        rintro ⟨r, hr, _⟩
        rw [hx] at hr
        exact absurd hr (by simp)
      refine ⟨ih1, ?_, ?_, ?_, ih5, ?_, ?_⟩
      · show (sel, st) :: _ = _
        rw [List.map_cons, ttf_cons, hq]
        simp only [Bool.false_eq_true, if_false]
        rw [ih2]
      · intro hall hnb
        exact ih3 (fun s hs => hall s (List.mem_cons_of_mem _ hs)) hnb
      · rintro ⟨s, hs, hsucc⟩
        rcases List.mem_cons.mp hs with h1 | h1
        · subst h1
          exact absurd hsucc hns
        · exact ih4 ⟨s, h1, hsucc⟩
      · intro hall
        exact ih6 (fun s hs => hall s (List.mem_cons_of_mem _ hs))
      · rintro ⟨s, hs, hqs⟩
        rcases List.mem_cons.mp hs with h1 | h1
        · subst h1
          rw [hq] at hqs
          exact absurd hqs (by simp)
        · exact ih7 ⟨s, h1, hqs⟩
    | ok res =>
      rw [bestInner_cons_ok exec config min_songs sel st rest best res hx]
      by_cases hstop : (res.success && decide (res.song_count ≥ min_songs)) = true
      · rw [if_pos hstop]
        simp only [Bool.and_eq_true, decide_eq_true_eq] at hstop
        have hq : stopCond exec config min_songs (sel, st) = true := by
          unfold stopCond
          rw [hx]
          simp [hstop.1, hstop.2]
        have hbest2 : StopBest min_songs
            (if is_better_result res best = true then some res else best) := by
          by_cases hib : is_better_result res best = true
          · rw [if_pos hib]
            exact ⟨res, rfl, hstop.1, hstop.2⟩
          · rw [if_neg hib]
            cases hb : best with
            | none =>
              exfalso
              apply hib
              subst hb
              unfold is_better_result
              exact hstop.1
            | some cb =>
              have hcb := hI cb hb
              have hibf : is_better_result res (some cb) = false := by
                rw [← hb]
                simpa using hib
              have hcount := is_better_false_count res cb hcb hstop.1 hibf
              exact ⟨cb, rfl, hcb, le_trans hstop.2 hcount⟩
        refine ⟨?_, ?_, ?_, ?_, ?_, ?_, ?_⟩
        · intro b hb
          obtain ⟨b2, hb2, hs2, _⟩ := hbest2
          rw [hb2] at hb
          have hbb : b2 = b := by simpa using hb
          rw [← hbb]
          exact hs2
        · show [(sel, st)] = _
          rw [List.map_cons, ttf_cons, hq]
          simp
        · intro hall _
          rw [hall st (List.mem_cons_self _ _)] at hq
          exact absurd hq (by simp)
        · intro _
          obtain ⟨b2, hb2, _, _⟩ := hbest2
          rw [hb2]
          simp
        · intro _
          obtain ⟨b2, hb2, _, _⟩ := hbest2
          rw [hb2]
          simp
        · intro hall
          exact absurd ⟨res, hx, hstop.1⟩ (hall st (List.mem_cons_self _ _))
        · intro _
          exact hbest2
      · rw [if_neg hstop]
        have hq : stopCond exec config min_songs (sel, st) = false := by
          unfold stopCond
          rw [hx]
          simpa using hstop
        have hI2 : ∀ b,
            (if is_better_result res best = true then some res else best) = some b →
            b.success = true := by
          by_cases hib : is_better_result res best = true
          · rw [if_pos hib]
            intro b hb
            rw [Option.some.injEq] at hb
            rw [← hb]
            exact is_better_success res best hib
          · rw [if_neg hib]
            exact hI
        obtain ⟨ih1, ih2, ih3, ih4, ih5, ih6, ih7⟩ := ih _ hI2
        refine ⟨ih1, ?_, ?_, ?_, ?_, ?_, ?_⟩
        · show (sel, st) :: _ = _
          rw [List.map_cons, ttf_cons, hq]
          simp only [Bool.false_eq_true, if_false]
          rw [ih2]
        · intro hall hnb
          apply ih3 (fun s hs => hall s (List.mem_cons_of_mem _ hs))
          by_cases hib : is_better_result res best = true
          · rw [if_pos hib]
            rintro ⟨b2, hb2, hsb2, hcb2⟩
            rw [Option.some.injEq] at hb2
            subst hb2
            unfold stopCond at hq
            dsimp only at hq
            rw [hx] at hq
            dsimp only at hq
            rw [hsb2] at hq
            simp at hq
            omega
          · rw [if_neg hib]
            exact hnb
        · rintro ⟨s, hs, hsucc⟩
          rcases List.mem_cons.mp hs with h1 | h1
          · subst h1
            obtain ⟨r, hr, hrs⟩ := hsucc
            rw [hx] at hr
            have hres : res = r := by simpa using hr
            subst hres
            apply ih5
            by_cases hib : is_better_result res best = true
            · rw [if_pos hib]
              simp
            · rw [if_neg hib]
              cases hb : best with
              | none =>
                exfalso
                apply hib
                subst hb
                unfold is_better_result
                exact hrs
              | some cb => simp
          · exact ih4 ⟨s, h1, hsucc⟩
        · intro hbne
          apply ih5
          by_cases hib : is_better_result res best = true
          · rw [if_pos hib]
            simp
          · rw [if_neg hib]
            exact hbne
        · intro hall
          have hrs : res.success = false := by
            by_contra hc
            exact hall st (List.mem_cons_self _ _) ⟨res, hx, by simpa using hc⟩
          have hib : ¬is_better_result res best = true := by
            intro h
            rw [is_better_success res best h] at hrs
            exact absurd hrs (by simp)
          rw [if_neg hib] at ih6 ⊢
          exact ih6 (fun s hs => hall s (List.mem_cons_of_mem _ hs))
        · rintro ⟨s, hs, hqs⟩
          rcases List.mem_cons.mp hs with h1 | h1
          · subst h1
            rw [hq] at hqs
            exact absurd hqs (by simp)
          · exact ih7 ⟨s, h1, hqs⟩

theorem bestOuter_cons (exec : Exec) (config : ExtractionConfig)
    (min_songs : Nat) (sel : ElementSelector) (rest : List ElementSelector)
    (best : Option ExtractionResult) :
    bestOuter exec config min_songs (sel :: rest) best =
      (match (bestInner exec config min_songs sel
          (coordinatorStrategies.filter
            (fun st => can_handle st sel && validate_config st config)) best).1 with
       | some br =>
         if (br.success && decide (br.song_count ≥ min_songs)) = true then
           ((bestInner exec config min_songs sel
              (coordinatorStrategies.filter
                (fun st => can_handle st sel && validate_config st config)) best).1,
            (bestInner exec config min_songs sel
              (coordinatorStrategies.filter
                (fun st => can_handle st sel && validate_config st config)) best).2)
         else
           ((bestOuter exec config min_songs rest
              (bestInner exec config min_songs sel
                (coordinatorStrategies.filter
                  (fun st => can_handle st sel && validate_config st config)) best).1).1,
            (bestInner exec config min_songs sel
              (coordinatorStrategies.filter
                (fun st => can_handle st sel && validate_config st config)) best).2 ++
            (bestOuter exec config min_songs rest
              (bestInner exec config min_songs sel
                (coordinatorStrategies.filter
                  (fun st => can_handle st sel && validate_config st config)) best).1).2)
       | none =>
         ((bestOuter exec config min_songs rest none).1,
          (bestInner exec config min_songs sel
            (coordinatorStrategies.filter
              (fun st => can_handle st sel && validate_config st config)) best).2 ++
          (bestOuter exec config min_songs rest none).2)) := by
  conv_lhs => unfold bestOuter

theorem bestOuter_spec (exec : Exec) (config : ExtractionConfig)
    (min_songs : Nat) :
    ∀ (sels : List ElementSelector) (best : Option ExtractionResult),
      (∀ b, best = some b → b.success = true) →
      ¬StopBest min_songs best →
      (∀ b, (bestOuter exec config min_songs sels best).1 = some b →
        b.success = true) ∧
      ((bestOuter exec config min_songs sels best).2 =
        takeThroughFirst (stopCond exec config min_songs)
          ((sels.map (compatPairs config)).flatten)) ∧
      ((bestOuter exec config min_songs sels best).1 = none →
        best = none ∧
        ∀ p ∈ (sels.map (compatPairs config)).flatten,
          ¬okExecSucc exec config p) ∧
      ((∀ p ∈ (sels.map (compatPairs config)).flatten,
          ¬okExecSucc exec config p) →
        (bestOuter exec config min_songs sels best).1 = best) := by
  intro sels
  induction sels with
  | nil =>
    intro best hI hnb
    refine ⟨hI, rfl, ?_, fun _ => rfl⟩
    intro h
    exact ⟨h, by simp⟩
  | cons sel rest ihO =>
    intro best hI hnb
    obtain ⟨i1, i2, i3, i4, i5, i6, i7⟩ := bestInner_spec exec config min_songs sel
      (coordinatorStrategies.filter
        (fun st => can_handle st sel && validate_config st config)) best hI
    have hflat : ((sel :: rest).map (compatPairs config)).flatten =
        compatPairs config sel ++ ((rest.map (compatPairs config)).flatten) := by
      simp
    have hmem_cp : ∀ p ∈ compatPairs config sel,
        ∃ s, s ∈ coordinatorStrategies.filter
          (fun st => can_handle st sel && validate_config st config) ∧
          p = (sel, s) := by
      intro p hp
      unfold compatPairs at hp
      obtain ⟨s, hs, hps⟩ := List.mem_map.mp hp
      exact ⟨s, hs, hps.symm⟩
    by_cases hex : ∃ s ∈ coordinatorStrategies.filter
        (fun st => can_handle st sel && validate_config st config),
        stopCond exec config min_songs (sel, s) = true
    · obtain ⟨br, hbr, hsbr, hcbr⟩ := i7 hex
      have htest : (br.success && decide (br.song_count ≥ min_songs)) = true := by
        simp [hsbr, hcbr]
      rw [bestOuter_cons, hbr]
      dsimp only
      rw [if_pos htest]
      have hexp : ∃ x ∈ compatPairs config sel,
          stopCond exec config min_songs x = true := by
        obtain ⟨s, hs, hqs⟩ := hex
        exact ⟨(sel, s), List.mem_map.mpr ⟨s, hs, rfl⟩, hqs⟩
      refine ⟨?_, ?_, ?_, ?_⟩
      · intro b hb
        have : br = b := by simpa using hb
        rw [← this]
        exact hsbr
      · rw [hflat, ttf_append_stop _ _ _ hexp]
        exact i2
      · intro h
        simp at h
      · intro hall
        obtain ⟨s, hs, hqs⟩ := hex
        exact absurd (stopCond_okSucc exec config min_songs (sel, s) hqs)
          (hall (sel, s) (hflat ▸ List.mem_append_left _
            (List.mem_map.mpr ⟨s, hs, rfl⟩)))
    · have hall : ∀ s ∈ coordinatorStrategies.filter
          (fun st => can_handle st sel && validate_config st config),
          stopCond exec config min_songs (sel, s) = false := by
        intro s hs
        by_contra hc
        exact hex ⟨s, hs, by simpa using hc⟩
      have hallp : ∀ p ∈ compatPairs config sel,
          stopCond exec config min_songs p = false := by
        intro p hp
        obtain ⟨s, hs, hps⟩ := hmem_cp p hp
        rw [hps]
        exact hall s hs
      have hnb1 := i3 hall hnb
      cases hr1 : (bestInner exec config min_songs sel
          (coordinatorStrategies.filter
            (fun st => can_handle st sel && validate_config st config)) best).1 with
      | some br =>
        have hbrs : br.success = true := i1 br hr1
        have htest : (br.success && decide (br.song_count ≥ min_songs)) = false := by
          rw [hbrs]
          simp only [Bool.true_and, decide_eq_false_iff_not]
          intro hge
          exact (hr1 ▸ hnb1) ⟨br, rfl, hbrs, hge⟩
        rw [bestOuter_cons, hr1]
        dsimp only
        rw [if_neg (by simp [htest])]
        obtain ⟨o1, o2, o3, o4⟩ := ihO (some br)
          (fun b hb => by rw [← (by simpa using hb : br = b)]; exact hbrs)
          (hr1 ▸ hnb1)
        refine ⟨?_, ?_, ?_, ?_⟩
        · intro b hb
          exact o1 b hb
        · rw [hflat, ttf_append_no _ _ _ hallp, o2, i2,
              ttf_all_false (stopCond exec config min_songs)
                (List.map (fun st => (sel, st))
                  (List.filter (fun st => can_handle st sel && validate_config st config)
                    coordinatorStrategies))
                (fun x hx => hallp x hx)]
          rfl
        · intro h
          obtain ⟨habs, _⟩ := o3 h
          simp at habs
        · intro hp
          have hpg : ∀ p ∈ compatPairs config sel, ¬okExecSucc exec config p :=
            fun p hpm => hp p (hflat ▸ List.mem_append_left _ hpm)
          have hpr : ∀ p ∈ (rest.map (compatPairs config)).flatten,
              ¬okExecSucc exec config p :=
            fun p hpm => hp p (hflat ▸ List.mem_append_right _ hpm)
          have h6 : (bestInner exec config min_songs sel
              (coordinatorStrategies.filter
                (fun st => can_handle st sel && validate_config st config)) best).1 =
              best := by
            apply i6
            intro s hs
            exact hpg (sel, s) (List.mem_map.mpr ⟨s, hs, rfl⟩)
          rw [o4 hpr, ← hr1]
          exact h6
      | none =>
        rw [bestOuter_cons, hr1]
        dsimp only
        obtain ⟨o1, o2, o3, o4⟩ := ihO none (by simp) (by rintro ⟨b, hb, _⟩; simp at hb)
        refine ⟨o1, ?_, ?_, ?_⟩
        · rw [hflat, ttf_append_no _ _ _ hallp, o2, i2,
              ttf_all_false (stopCond exec config min_songs)
                (List.map (fun st => (sel, st))
                  (List.filter (fun st => can_handle st sel && validate_config st config)
                    coordinatorStrategies))
                (fun x hx => hallp x hx)]
          rfl
        · intro h
          obtain ⟨_, hrest⟩ := o3 h
          have hbest : best = none := by
            by_contra hb
            exact (i5 hb) hr1
          refine ⟨hbest, ?_⟩
          intro p hp
          rw [hflat] at hp
          rcases List.mem_append.mp hp with h1 | h1
          · obtain ⟨s, hs, hps⟩ := hmem_cp p h1
            rw [hps]
            intro hsucc
            exact (i4 ⟨s, hs, hsucc⟩) hr1
          · exact hrest p h1
        · intro hp
          have hpg : ∀ s ∈ coordinatorStrategies.filter
              (fun st => can_handle st sel && validate_config st config),
              ¬okExecSucc exec config (sel, s) := by
            intro s hs
            exact hp (sel, s) (hflat ▸ List.mem_append_left _
              (List.mem_map.mpr ⟨s, hs, rfl⟩))
          have h6 := i6 hpg
          rw [hr1] at h6
          have hpr : ∀ p ∈ (rest.map (compatPairs config)).flatten,
              ¬okExecSucc exec config p :=
            fun p hpm => hp p (hflat ▸ List.mem_append_right _ hpm)
          rw [o4 hpr, h6]

/-- C7: if any compatible execution of the best-effort scan answers with
a success result, the policy returns a success result; it returns the
canonical coordinator failure exactly when no execution succeeds; and
the executed pairs are precisely the scan order up to and including the
first execution whose result is a success meeting the configured
minimum (default one), so the scan stops as soon as the running best
meets the threshold. -/
theorem C7_best_effort (exec : Exec) (selectors : List ElementSelector)
    (config : ExtractionConfig) :
    ((∃ p ∈ scanPairs selectors config, okExecSucc exec config p) →
      (extract_songs_best_effort exec selectors config).1.success = true) ∧
    ((∀ p ∈ scanPairs selectors config, ¬okExecSucc exec config p) →
      (extract_songs_best_effort exec selectors config).1 =
        ExtractionResult.create_failure
          (s2c "No extraction strategies produced results")
          (s2c "coordinator") (s2c "multiple") 0) ∧
    ((extract_songs_best_effort exec selectors config).2 =
      takeThroughFirst (stopCond exec config (config.min_songs_for_success.getD 1))
        (scanPairs selectors config)) := by
  obtain ⟨o1, o2, o3, o4⟩ := bestOuter_spec exec config
    (config.min_songs_for_success.getD 1)
    (sortDescBy (fun s : ElementSelector => s.priority) selectors) none
    (by intro b hb; simp at hb)
    (by rintro ⟨b, hb, _⟩; simp at hb)
  unfold extract_songs_best_effort
  dsimp only
  refine ⟨?_, ?_, ?_⟩
  · rintro ⟨p, hp, hsucc⟩
    cases hr : (bestOuter exec config (config.min_songs_for_success.getD 1)
        (sortDescBy (fun s : ElementSelector => s.priority) selectors) none).1 with
    | none =>
      obtain ⟨_, hnone⟩ := o3 hr
      rw [scanPairs_eq] at hp
      exact absurd hsucc (hnone p hp)
    | some b =>
      exact o1 b hr
  · intro hall
    rw [scanPairs_eq] at hall
    rw [o4 hall]
  · cases hr : (bestOuter exec config (config.min_songs_for_success.getD 1)
        (sortDescBy (fun s : ElementSelector => s.priority) selectors) none).1 with
    | none =>
      rw [scanPairs_eq]
      exact o2
    | some b =>
      rw [scanPairs_eq]
      exact o2

/-- C7 witness: a one-selector scan whose single compatible execution
succeeds. -/
theorem C7_best_effort_witness :
    (extract_songs_best_effort
      (fun _ _ _ => Except.ok (ExtractionResult.create_success
        [{ title := s2c "Great Tune" }] (s2c "table_row") (s2c "tr") 1))
      [⟨s2c "tr", 10, false⟩] {}).1.success = true :=
  (C7_best_effort
    (fun _ _ _ => Except.ok (ExtractionResult.create_success
      [{ title := s2c "Great Tune" }] (s2c "table_row") (s2c "tr") 1))
    [⟨s2c "tr", 10, false⟩] {}).1
    ⟨(⟨s2c "tr", 10, false⟩, StratId.table_row), by decide,
     ⟨ExtractionResult.create_success [{ title := s2c "Great Tune" }]
        (s2c "table_row") (s2c "tr") 1, rfl, rfl⟩⟩
